import Mathlib

/-! metawall: falloff, colour blending, ball physics and field compositing.

A shallow embedding of `src/main.c`.

Number model.  A C `float` that holds a number is a real number; `rnd` is the rounding
of IEEE binary32 (to nearest, ties to even).  Where a statement below turns on single
precision, every operation is followed by `rnd`, as the machine does it: in
`UpdateBallBounds`, in the distance of the compositor (`cellDistance`), in `Init` and
in the single-precision falloff `SmoothFalloff32`.
The falloff, the blend and the position integration (`SmoothFalloff`, `blendChannel`,
`stepBall`) are taken over the reals, with `sqrtf` as `Real.sqrt` and `powf` as the
real power; `powf` belongs to the C library and its rounding is not fixed by the
source (`SmoothFalloff32` takes it as correctly rounded).  Overflow to an infinity is not modelled: the statements that could meet it
bound the magnitudes.  A float that may be NaN is an `Option`, with `none` for NaN
(`NVector2`, `NBall`, `moveN`).
A conversion `(int)` or `(uint32_t)` of a float is truncation toward zero (undefined in
C when the value leaves the range of the type); an `int` result that leaves the 32
bits, also undefined in C, is the two's complement wrap of the usual targets
(`wrap32`).
A packed pixel (`uint32_t`) is a natural number, little end first: byte 0 red,
byte 1 green, byte 2 blue, byte 3 alpha.
-/

namespace Metawall

/-! ## Constants (`#define`s of `main.c`) -/

def WIDTH : Nat := 1920
def HEIGHT : Nat := 1200
def NO_BALLS : Nat := 20
def BASE_SPEED : ℝ := 300
def GRID_SCALE : Nat := 2
def INFLUENCE_RADIUS : ℝ := 200
def SOFT_EDGE_FACTOR : ℝ := 0.75

/-! ## Data model -/

/-- Two floats, the `Vector2` of `vmath.h`. -/
structure Vector2 where
  x : ℝ
  y : ℝ

/-- Four 8-bit channels, the `SDL_Color` of SDL. -/
structure SDL_Color where
  r : Fin 256
  g : Fin 256
  b : Fin 256
  a : Fin 256

/-- Integer rectangle, the `SDL_Rect` of SDL. -/
structure SDL_Rect where
  x : Int
  y : Int
  w : Int
  h : Int

/-- The `Ball` struct of `main.c`. -/
structure Ball where
  pos : Vector2
  vel : Vector2
  radius : ℝ
  color : SDL_Color
  bounds : SDL_Rect
  intensity : ℝ

/-- Modelled from the spec: `Vector2Add` of `vmath.h`, which is not among the sources;
the spec has the position advance by the movement vector, so this is the componentwise
sum. -/
def Vector2Add (a b : Vector2) : Vector2 :=
  ⟨a.x + b.x, a.y + b.y⟩

/-- Conversion of a float to `int`: truncation toward zero. -/
noncomputable def toInt (v : ℝ) : Int :=
  if 0 ≤ v then ⌊v⌋ else ⌈v⌉

/-- Two's complement wrap of an `int` result to 32 bits. -/
def wrap32 (z : Int) : Int :=
  (z + 2 ^ 31) % 2 ^ 32 - 2 ^ 31

/-- Nearest integer, ties to the even one. -/
noncomputable def roundEven (r : ℝ) : Int :=
  if r - ⌊r⌋ < 1 / 2 then ⌊r⌋
  else if 1 / 2 < r - ⌊r⌋ then ⌊r⌋ + 1
  else if Even ⌊r⌋ then ⌊r⌋ else ⌊r⌋ + 1

/-- Exponent of the unit in the last place of binary32 at `x`: 24 significant bits,
least normal exponent -126 (below it the values are subnormal). -/
noncomputable def ulpExp (x : ℝ) : Int :=
  max (Int.log 2 |x|) (-126) - 23

/-- Rounding of a real to binary32: to the nearest multiple of the unit in the last
place, ties to even. -/
noncomputable def rnd (x : ℝ) : ℝ :=
  (roundEven (x / (2 : ℝ) ^ ulpExp x) : ℝ) * (2 : ℝ) ^ ulpExp x

/-- The reals that binary32 holds exactly: `m * 2 ^ k` with at most 24 bits in `m`. -/
def IsFloat (c : ℝ) : Prop :=
  ∃ m k : Int, |m| ≤ 2 ^ 24 ∧ -149 ≤ k ∧ c = (m : ℝ) * (2 : ℝ) ^ k

/-! ## Falloff -/

/-- `SmoothFalloff` of `main.c`, lines 43-60. -/
noncomputable def SmoothFalloff (distance radius influence_radius : ℝ) : ℝ :=
  if distance ≥ influence_radius then 0
  else
    let normalized_dist := distance / influence_radius
    let x := 1 - normalized_dist
    let falloff := x * x * (3 - 2 * x)
    let falloff := falloff * (radius / 40)
    let falloff := falloff * (1 - normalized_dist ^ SOFT_EDGE_FACTOR)
    falloff

/-- `ColorToUint32` of `main.c`, lines 62-64. -/
def ColorToUint32 (color : SDL_Color) : Nat :=
  (color.a.val <<< 24) ||| (color.b.val <<< 16) ||| (color.g.val <<< 8) ||| color.r.val

/-- One channel of `BlendColors`: the three channels run the same three statements
(decode `/ 255.0f`, `sqrtf (c1 * c1 + c2 * c2 * factor)`,
`(uint32_t)(fmin (c1 * 255.0f, 255.0f))`) on their own byte; `c1` is the byte of the
existing pixel and `c2` the byte of the new one.  The value under the conversion is
never negative, so truncation is the floor. -/
noncomputable def blendChannel (c1 c2 : Nat) (factor : ℝ) : Nat :=
  let r1 : ℝ := (c1 : ℝ) / 255
  let r2 : ℝ := (c2 : ℝ) / 255
  let r1 := Real.sqrt (r1 * r1 + r2 * r2 * factor)
  ⌊min (r1 * 255) 255⌋₊

/-- The value `r` that `BlendColors` computes before packing. -/
noncomputable def blendR (existing new : Nat) (factor : ℝ) : Nat :=
  blendChannel (existing &&& 0xFF) (new &&& 0xFF) factor

/-- The value `g` that `BlendColors` computes before packing. -/
noncomputable def blendG (existing new : Nat) (factor : ℝ) : Nat :=
  blendChannel ((existing >>> 8) &&& 0xFF) ((new >>> 8) &&& 0xFF) factor

/-- The value `b` that `BlendColors` computes before packing. -/
noncomputable def blendB (existing new : Nat) (factor : ℝ) : Nat :=
  blendChannel ((existing >>> 16) &&& 0xFF) ((new >>> 16) &&& 0xFF) factor

/-- `BlendColors` of `main.c`, lines 67-88; the packing is done in 32 bits. -/
noncomputable def BlendColors (existing new : Nat) (factor : ℝ) : Nat :=
  let r := blendR existing new factor
  let g := blendG existing new factor
  let b := blendB existing new factor
  ((0xFF <<< 24) ||| (b <<< 16) ||| (g <<< 8) ||| r) % 2 ^ 32

/-- Byte `i` of a packed pixel. -/
def byteOf (pixel i : Nat) : Nat :=
  (pixel >>> (8 * i)) &&& 0xFF

/-! ## Bounding boxes and physics -/

/-- The half-width that `UpdateBallBounds` computes, line 154: three float operations,
each rounded, then the conversion to `int`; `1.2f` is the rounding of 1.2. -/
noncomputable def halfWidth (radius : ℝ) : Int :=
  toInt (rnd (rnd (rnd (radius * INFLUENCE_RADIUS) / (GRID_SCALE : ℝ)) * rnd 1.2))

/-- The cell coordinate `(int)(p / GRID_SCALE)` of lines 155-156. -/
noncomputable def cellOf (p : ℝ) : Int :=
  toInt (rnd (p / (GRID_SCALE : ℝ)))

/-- `UpdateBallBounds` of `main.c`, lines 152-165.  `fmax` and `fmin` take the `int`
operands as doubles, exactly, and their result converts back to `int` exactly. -/
noncomputable def UpdateBallBounds (ball : Ball) : Ball :=
  let radius : Int := halfWidth ball.radius
  let x : Int := wrap32 (cellOf ball.pos.x - radius)
  let y : Int := wrap32 (cellOf ball.pos.y - radius)
  let w : Int := wrap32 (radius * 2)
  let h : Int := wrap32 (radius * 2)
  let x : Int := max 0 x
  let y : Int := max 0 y
  let w : Int := min w (wrap32 (((WIDTH / GRID_SCALE : Nat) : Int) - x))
  let h : Int := min h (wrap32 (((HEIGHT / GRID_SCALE : Nat) : Int) - y))
  { ball with bounds := ⟨x, y, w, h⟩ }

/-- The body of the first loop of `Update` (lines 189-214) for one ball: integrate the
position, run the four boundary checks in the order of the source, refresh the bounds. -/
noncomputable def stepBall (ball : Ball) (deltaTime : ℝ) : Ball :=
  let movement : Vector2 :=
    ⟨ball.vel.x * BASE_SPEED * deltaTime, ball.vel.y * BASE_SPEED * deltaTime⟩
  let b : Ball := { ball with pos := Vector2Add ball.pos movement }
  let b : Ball :=
    if b.pos.x ≤ 0 then { b with pos := ⟨0, b.pos.y⟩, vel := ⟨b.vel.x * -1, b.vel.y⟩ } else b
  let b : Ball :=
    if b.pos.x ≥ (WIDTH : ℝ) then
      { b with pos := ⟨(WIDTH : ℝ), b.pos.y⟩, vel := ⟨b.vel.x * -1, b.vel.y⟩ }
    else b
  let b : Ball :=
    if b.pos.y ≤ 0 then { b with pos := ⟨b.pos.x, 0⟩, vel := ⟨b.vel.x, b.vel.y * -1⟩ } else b
  let b : Ball :=
    if b.pos.y ≥ (HEIGHT : ℝ) then
      { b with pos := ⟨b.pos.x, (HEIGHT : ℝ)⟩, vel := ⟨b.vel.x, b.vel.y * -1⟩ }
    else b
  UpdateBallBounds b

/-! ## Field compositor -/

/-- The bounding-box containment test of `Update`, lines 223-224. -/
def inBounds (bounds : SDL_Rect) (row col : Int) : Prop :=
  col ≥ bounds.x ∧ col < bounds.x + bounds.w ∧ row ≥ bounds.y ∧ row < bounds.y + bounds.h

instance (bounds : SDL_Rect) (row col : Int) : Decidable (inBounds bounds row col) := by
  unfold inBounds
  infer_instance

/-- The `distance` of `Update`, lines 226-228, from cell `(row, col)` to a ball, as the
machine computes it: the `int` coordinate is converted to float, every float operation
is rounded, and the double `sqrt` of a float stored into a float is the rounded exact
square root. -/
noncomputable def cellDistance (ball : Ball) (row col : Int) : ℝ :=
  let dx : ℝ := rnd (rnd ((col * (GRID_SCALE : Int) : Int) : ℝ) - ball.pos.x)
  let dy : ℝ := rnd (rnd ((row * (GRID_SCALE : Int) : Int) : ℝ) - ball.pos.y)
  rnd (Real.sqrt (rnd (rnd (dx * dx) + rnd (dy * dy))))

/-- The distance in exact arithmetic from cell `(row, col)` to a ball,
`sqrt ((col * 2 - pos.x) ^ 2 + (row * 2 - pos.y) ^ 2)`. -/
noncomputable def exactDistance (ball : Ball) (row col : Int) : ℝ :=
  Real.sqrt ((((col * 2 : Int) : ℝ) - ball.pos.x) ^ 2 +
    (((row * 2 : Int) : ℝ) - ball.pos.y) ^ 2)

/-- The `factor` of `Update`, lines 231-232. -/
noncomputable def cellFactor (ball : Ball) (row col : Int) : ℝ :=
  SmoothFalloff (cellDistance ball row col) ball.radius INFLUENCE_RADIUS * ball.intensity

/-- One pass of the loop over the balls (lines 222-238) on the pair
`(pixel, totalInfluence)`. -/
noncomputable def cellStep (row col : Int) (acc : Nat × ℝ) (ball : Ball) : Nat × ℝ :=
  if inBounds ball.bounds row col then
    if cellDistance ball row col < INFLUENCE_RADIUS then
      (BlendColors acc.1 (ColorToUint32 ball.color) (cellFactor ball row col),
        acc.2 + cellFactor ball row col)
    else acc
  else acc

/-- The pair `(pixel, totalInfluence)` after the loop over the balls, in ascending
index order, started from `pixel = 0`, `totalInfluence = 0.0f` (lines 219-238). -/
noncomputable def accumulate (balls : List Ball) (row col : Int) : Nat × ℝ :=
  balls.foldl (cellStep row col) (0, 0)

/-- The ambient-glow step, lines 241-244. -/
noncomputable def ambientGlow (acc : Nat × ℝ) : Nat :=
  if acc.2 > 0 then BlendColors acc.1 0xFFFFFFFF (acc.2 * 0.15) else acc.1

/-- The pixel that `Update` stores for cell `(row, col)` (lines 219-246). -/
noncomputable def cellPixel (balls : List Ball) (row col : Int) : Nat :=
  ambientGlow (accumulate balls row col)

/-- Channelwise order on packed pixels: no byte of `p` is above the same byte of `q`. -/
def pixelLe (p q : Nat) : Prop :=
  ∀ i, i < 4 → byteOf p i ≤ byteOf q i

/-- The pure red of `colors[0]`. -/
def red : SDL_Color := ⟨255, 0, 0, 255⟩

/-- The pure green of `colors[1]`. -/
def green : SDL_Color := ⟨0, 255, 0, 255⟩

/-- A ball of radius one half at the middle of the screen, bounds not yet refreshed. -/
noncomputable def smallBall : Ball :=
  ⟨⟨960, 600⟩, ⟨1, 0⟩, 1 / 2, red, ⟨0, 0, 0, 0⟩, 1⟩

/-- The single-source scenario: one red ball at `(960, 600)`, radius 40, intensity 1,
bounds refreshed by `UpdateBallBounds`; the velocity and the stale bounds are free. -/
noncomputable def singleSource (vel : Vector2) (stale : SDL_Rect) : Ball :=
  UpdateBallBounds ⟨⟨960, 600⟩, vel, 40, red, stale, 1⟩

/-- The pure blue of `colors[2]`. -/
def blue : SDL_Color := ⟨0, 0, 255, 255⟩

/-- The magenta of `colors[3]`. -/
def magenta : SDL_Color := ⟨255, 0, 255, 255⟩

/-- The table `colors` of `main.c`, line 39; only the indices `0 .. 3` are read. -/
def colors (i : Nat) : SDL_Color :=
  match i with
  | 0 => red
  | 1 => green
  | 2 => blue
  | _ => magenta

/-- Two floats that may be NaN (`none`). -/
structure NVector2 where
  x : Option ℝ
  y : Option ℝ

/-- The `Ball` struct with a position and a velocity that may be NaN. -/
structure NBall where
  pos : NVector2
  vel : NVector2
  radius : ℝ
  color : SDL_Color
  bounds : SDL_Rect
  intensity : ℝ

/-- Float division `a / b` as `Init` runs it on the velocity: the rounded quotient, and
NaN for `0 / 0`.  A non-zero dividend over zero is an infinity, which is also `none`
here.  The source has no test on the divisor. -/
noncomputable def fdivN (a b : ℝ) : Option ℝ :=
  if b = 0 then none else some (rnd (a / b))

/-- A raw velocity component of `Init`, lines 171-172, from a `rand()` draw:
`(float)rand() / (float)RAND_MAX * 2.0f - 1.0f`, every step rounded. -/
noncomputable def rawVelocity (RAND_MAX draw : Nat) : ℝ :=
  rnd (rnd (rnd (rnd (draw : ℝ) / rnd (RAND_MAX : ℝ)) * 2) - 1)

/-- The normalisation of `Init`, lines 173-175, on the raw velocity `(vx, vy)`: the
length is the rounded square root of the rounded sum of the rounded squares, and both
components are divided by it. -/
noncomputable def normalizeVelocity (vx vy : ℝ) : NVector2 :=
  let length := rnd (Real.sqrt (rnd (rnd (vx * vx) + rnd (vy * vy))))
  ⟨fdivN vx length, fdivN vy length⟩

/-- One pass of the loop of `Init`, lines 169-179, on the seven `rand()` draws of the
pass, in the order of the source; `RAND_MAX` is the constant of the C library
(2147483647 in glibc).  The ball starts from the zeroed global array, and the pass
always ends with the ball stored and its bounds refreshed; the refresh reads the
position and the radius only, so it is run on a ball with a placeholder velocity. -/
noncomputable def InitBall (RAND_MAX d0 d1 d2 d3 d4 d5 d6 : Nat) : NBall :=
  let px : ℝ := ((d0 % WIDTH : Nat) : ℝ)
  let py : ℝ := ((d1 % HEIGHT : Nat) : ℝ)
  let vel : NVector2 := normalizeVelocity (rawVelocity RAND_MAX d2) (rawVelocity RAND_MAX d3)
  let radius : ℝ := ((d4 % 20 + 20 : Nat) : ℝ)
  let color : SDL_Color := colors (d5 % 4)
  let intensity : ℝ := rnd (((d6 % 50 + 50 : Nat) : ℝ) / 100)
  let bounds : SDL_Rect :=
    (UpdateBallBounds ⟨⟨px, py⟩, ⟨0, 0⟩, radius, color, ⟨0, 0, 0, 0⟩, intensity⟩).bounds
  ⟨⟨some px, some py⟩, vel, radius, color, bounds, intensity⟩

/-! ## Physics on floats that may be NaN -/

/-- Float addition, rounded; NaN in, NaN out. -/
noncomputable def naddN (a b : Option ℝ) : Option ℝ :=
  match a, b with
  | some x, some y => some (rnd (x + y))
  | _, _ => none

/-- Float multiplication, rounded; NaN in, NaN out. -/
noncomputable def nmulN (a b : Option ℝ) : Option ℝ :=
  match a, b with
  | some x, some y => some (rnd (x * y))
  | _, _ => none

/-- The comparison `a <= c`; false when `a` is NaN. -/
def nleN (a : Option ℝ) (c : ℝ) : Prop :=
  ∃ x, a = some x ∧ x ≤ c

/-- The comparison `a >= c`; false when `a` is NaN. -/
def ngeN (a : Option ℝ) (c : ℝ) : Prop :=
  ∃ x, a = some x ∧ c ≤ x

/-- The coordinate of one axis after the integration of lines 190-194, before the
boundary checks: `pos + vel * BASE_SPEED * deltaTime`, every operation rounded. -/
noncomputable def integrate (pos vel : Option ℝ) (deltaTime : ℝ) : Option ℝ :=
  naddN pos (nmulN (nmulN vel (some BASE_SPEED)) (some deltaTime))

/-- One axis of the physics loop of `Update`, lines 190-203 (and 204-211 for y), on a
coordinate and a velocity component that may be NaN: integrate, then the check against
0 and the check against the dimension bound, each false on a NaN. -/
noncomputable def moveAxis (pos vel : Option ℝ) (deltaTime bound : ℝ) :
    Option ℝ × Option ℝ :=
  open Classical in
  let p := integrate pos vel deltaTime
  let s : Option ℝ × Option ℝ :=
    if nleN p 0 then (some 0, nmulN vel (some (-1))) else (p, vel)
  if ngeN s.1 bound then (some bound, nmulN s.2 (some (-1))) else s

/-- The physics loop body of `Update`, lines 190-211, on a ball whose position and
velocity may be NaN.  The refresh of the bounds is left out: the conversion of a NaN to
`int` is undefined. -/
noncomputable def moveN (ball : NBall) (deltaTime : ℝ) : NBall :=
  let ax := moveAxis ball.pos.x ball.vel.x deltaTime (WIDTH : ℝ)
  let ay := moveAxis ball.pos.y ball.vel.y deltaTime (HEIGHT : ℝ)
  { ball with pos := ⟨ax.1, ay.1⟩, vel := ⟨ax.2, ay.2⟩ }

/-! ## Pixel buffer -/

/-- The index at which `Update` stores the pixel of cell `(row, col)`, line 246. -/
def pixelIndex (row col : Nat) : Nat :=
  col + row * (WIDTH / GRID_SCALE)

/-- The number of `uint32_t` cells that `Setup` allocates for `pixelBuffer`, line 133. -/
def bufferLength : Nat :=
  (WIDTH / GRID_SCALE) * (HEIGHT / GRID_SCALE)

/-- The indices that the two nested loops of `Update` (lines 217-218, 246) write, in the
order of a sequential run. -/
def writtenIndices : List Nat :=
  (List.range (HEIGHT / GRID_SCALE)).flatMap
    (fun row => (List.range (WIDTH / GRID_SCALE)).map (fun col => pixelIndex row col))

/-- A ball on the left edge of the screen whose radius is `13981013 / 16777216`, the
float nearest to five sixths (half-width 100 cells), bounds not yet refreshed. -/
noncomputable def edgeBall : Ball :=
  ⟨⟨0, 600⟩, ⟨1, 0⟩, 13981013 / 16777216, red, ⟨0, 0, 0, 0⟩, 1⟩

/-- The cells of the grid: `0 ≤ col < 960` and `0 ≤ row < 600`. -/
def inGrid (row col : Int) : Prop :=
  0 ≤ col ∧ col < 960 ∧ 0 ≤ row ∧ row < 600

/-- The centred square in the words of the spec: half-width
`h = trunc (radius * 200 / 2 * 1.2)` around the truncated centre
`(cx, cy) = (trunc (pos.x / 2), trunc (pos.y / 2))`, that is
`[cx - h, cx + h) x [cy - h, cy + h)`, with the three numbers as the code computes
them. -/
noncomputable def centredSquare (ball : Ball) (row col : Int) : Prop :=
  cellOf ball.pos.x - halfWidth ball.radius ≤ col ∧
  col < cellOf ball.pos.x + halfWidth ball.radius ∧
  cellOf ball.pos.y - halfWidth ball.radius ≤ row ∧
  row < cellOf ball.pos.y + halfWidth ball.radius

/-- A ball of radius ten million at the middle of the screen, bounds not yet
refreshed. -/
noncomputable def hugeBall : Ball :=
  ⟨⟨960, 600⟩, ⟨1, 0⟩, 10000000, red, ⟨0, 0, 0, 0⟩, 1⟩

/-- A red ball of radius 20 and intensity 1 whose exact distance to the centre of cell
`(row 335, col 106)` is just above 200, bounds refreshed. -/
noncomputable def rimBall : Ball :=
  UpdateBallBounds
    ⟨⟨13391001 / 1048576, 11264663 / 16384⟩, ⟨1, 0⟩, 20, red, ⟨0, 0, 0, 0⟩, 1⟩

/-- The ball that `Init` stores when both velocity draws are `2 ^ 30` under
`RAND_MAX = 2147483647`; the other draws are 0. -/
noncomputable def nanBall : NBall :=
  InitBall 2147483647 0 0 1073741824 1073741824 0 0 0

/-- A red ball of radius 20 and intensity one half at the middle of the screen, bounds
refreshed. -/
noncomputable def orderRed : Ball :=
  UpdateBallBounds ⟨⟨960, 600⟩, ⟨1, 0⟩, 20, red, ⟨0, 0, 0, 0⟩, 1 / 2⟩

/-- A magenta ball of radius 20 and intensity 0.613 at the middle of the screen, bounds
refreshed. -/
noncomputable def orderMagenta : Ball :=
  UpdateBallBounds ⟨⟨960, 600⟩, ⟨0, 1⟩, 20, magenta, ⟨0, 0, 0, 0⟩, 613 / 1000⟩

/-! ## Rounding to binary32 -/

theorem roundEven_le (r : ℝ) (n : Int) (h : r ≤ (n : ℝ)) : roundEven r ≤ n := by
  have hfl : ⌊r⌋ ≤ n := Int.floor_le_iff.mpr (by linarith [Int.lt_floor_add_one r])
  unfold roundEven
  have hcase : r - ⌊r⌋ < 1 / 2 ∨ ⌊r⌋ + 1 ≤ n := by
    by_cases hlt : r - ⌊r⌋ < 1 / 2
    · exact Or.inl hlt
    · right
      rcases lt_or_eq_of_le hfl with h1 | h1
      · omega
      · exfalso
        have h2 : (⌊r⌋ : ℝ) = (n : ℝ) := by exact_mod_cast h1
        have h3 : (⌊r⌋ : ℝ) ≤ r := Int.floor_le r
        have : r - ⌊r⌋ = 0 := by linarith
        rw [this] at hlt
        norm_num at hlt
  rcases hcase with h1 | h1
  · rw [if_pos h1]
    exact hfl
  · split_ifs <;> omega

/-- Rounding to the nearest integer does not pass an integer below the value. -/
theorem le_roundEven (r : ℝ) (n : Int) (h : (n : ℝ) ≤ r) : n ≤ roundEven r := by
  have hfl : n ≤ ⌊r⌋ := Int.le_floor.mpr h
  unfold roundEven
  split_ifs <;> omega

/-- An integer rounds to itself. -/
theorem roundEven_intCast (n : Int) : roundEven (n : ℝ) = n :=
  le_antisymm (roundEven_le _ n le_rfl) (le_roundEven _ n le_rfl)

/-- A value less than one half away from an integer rounds to it. -/
theorem roundEven_eq (r : ℝ) (n : Int) (h : |r - n| < 1 / 2) : roundEven r = n := by
  obtain ⟨h1, h2⟩ := abs_lt.mp h
  have hf : ⌊r⌋ = n ∨ ⌊r⌋ = n - 1 := by
    have a : n - 1 ≤ ⌊r⌋ := Int.le_floor.mpr (by push_cast; linarith)
    have b : ⌊r⌋ < n + 1 := Int.floor_lt.mpr (by push_cast; linarith)
    omega
  unfold roundEven
  rcases hf with hf | hf
  · have : r - ⌊r⌋ < 1 / 2 := by rw [hf]; linarith
    rw [if_pos this, hf]
  · have e : (⌊r⌋ : ℝ) = (n : ℝ) - 1 := by rw [hf]; push_cast; ring
    have h3 : ¬ (r - ⌊r⌋ < 1 / 2) := by rw [e]; linarith
    have h4 : 1 / 2 < r - ⌊r⌋ := by rw [e]; linarith
    rw [if_neg h3, if_pos h4, hf]
    ring


/-- The binary exponent of a value between two consecutive powers of 2. -/
theorem log2_eq (x : ℝ) (e : Int) (h1 : (2 : ℝ) ^ e ≤ |x|) (h2 : |x| < (2 : ℝ) ^ (e + 1)) :
    Int.log 2 |x| = e := by
  have hpos : 0 < |x| := lt_of_lt_of_le (by positivity) h1
  have a : e ≤ Int.log 2 |x| := by
    apply (Int.zpow_le_iff_le_log (by norm_num) hpos).mp
    exact_mod_cast h1
  have b : Int.log 2 |x| < e + 1 := by
    apply (Int.lt_zpow_iff_log_lt (by norm_num) hpos).mp
    exact_mod_cast h2
  omega

/-- A non-zero value lies between the power of 2 of its binary exponent and the next. -/
theorem log2_bounds (x : ℝ) (hx : x ≠ 0) :
    (2 : ℝ) ^ (Int.log 2 |x|) ≤ |x| ∧ |x| < (2 : ℝ) ^ (Int.log 2 |x| + 1) := by
  have hpos : 0 < |x| := abs_pos.mpr hx
  constructor
  · have := Int.zpow_log_le_self (b := 2) (by norm_num) hpos
    exact_mod_cast this
  · have := Int.lt_zpow_succ_log_self (b := 2) (by norm_num) |x|
    exact_mod_cast this

/-- The exponent of the unit in the last place of a value in the binade of `k`. -/
theorem ulpExp_eq (x : ℝ) (k : Int) (hk : -149 ≤ k) (h1 : (2 : ℝ) ^ (k + 23) ≤ |x|)
    (h2 : |x| < (2 : ℝ) ^ (k + 24)) : ulpExp x = k := by
  unfold ulpExp
  have e : k + 24 = k + 23 + 1 := by ring
  rw [e] at h2
  rw [log2_eq x (k + 23) h1 h2]
  omega

/-- Zero rounds to zero. -/
theorem rnd_zero : rnd 0 = 0 := by
  unfold rnd
  simp [roundEven_intCast, show roundEven (0 : ℝ) = 0 from by
    have := roundEven_intCast 0
    simpa using this]

/-- Evaluation of `rnd`: in the binade of ulp `2 ^ k`, a value within half an ulp of
`m * 2 ^ k` rounds to it. -/
theorem rnd_eq (x : ℝ) (m k : Int) (hk : -149 ≤ k) (h1 : (2 : ℝ) ^ (k + 23) ≤ |x|)
    (h2 : |x| < (2 : ℝ) ^ (k + 24)) (h : |x / (2 : ℝ) ^ k - m| < 1 / 2) :
    rnd x = (m : ℝ) * (2 : ℝ) ^ k := by
  unfold rnd
  rw [ulpExp_eq x k hk h1 h2, roundEven_eq _ m h]


/-- A float with exponent at least `E` is an integer multiple of `2 ^ E`. -/
theorem float_multiple (m k E : Int) (h : E ≤ k) :
    ∃ N : Int, (N : ℝ) * (2 : ℝ) ^ E = (m : ℝ) * (2 : ℝ) ^ k := by
  refine ⟨m * 2 ^ (k - E).toNat, ?_⟩
  have e : k = (((k - E).toNat : Int)) + E := by
    rw [Int.toNat_of_nonneg (by omega)]
    ring
  have hz : (2 : ℝ) ^ k = (2 : ℝ) ^ (k - E).toNat * (2 : ℝ) ^ E := by
    conv_lhs => rw [e]
    rw [zpow_add₀ (by norm_num), zpow_natCast]
  rw [hz]
  push_cast
  ring

/-- A float with exponent below `E` is at most `2 ^ 23 * 2 ^ E` in magnitude. -/
theorem float_small (m k E : Int) (hm : |m| ≤ 2 ^ 24) (h : k < E) :
    |(m : ℝ) * (2 : ℝ) ^ k| ≤ 2 ^ 23 * (2 : ℝ) ^ E := by
  have hm2 : |(m : ℝ)| ≤ 2 ^ 24 := by exact_mod_cast hm
  have hk : (2 : ℝ) ^ k ≤ (2 : ℝ) ^ (E - 1) := zpow_le_zpow_right₀ (by norm_num) (by omega)
  have hE : (2 : ℝ) ^ (E - 1) = (2 : ℝ) ^ E / 2 := by
    rw [zpow_sub₀ (by norm_num)]
    simp
  have hp : (0 : ℝ) < (2 : ℝ) ^ k := zpow_pos (by norm_num) k
  rw [abs_mul, abs_of_pos hp]
  calc |(m : ℝ)| * (2 : ℝ) ^ k ≤ 2 ^ 24 * (2 : ℝ) ^ (E - 1) :=
        mul_le_mul hm2 hk hp.le (by norm_num)
    _ = 2 ^ 23 * (2 : ℝ) ^ E := by rw [hE]; ring

/-- Above the subnormal range a non-zero value is at least `2 ^ 23` ulps in magnitude. -/
theorem ulps_large (x : ℝ) (hx : x ≠ 0) (hE : -149 < ulpExp x) :
    2 ^ 23 * (2 : ℝ) ^ ulpExp x ≤ |x| := by
  obtain ⟨h1, _⟩ := log2_bounds x hx
  have e : Int.log 2 |x| = ulpExp x + 23 := by
    unfold ulpExp at hE ⊢
    omega
  rw [e, zpow_add₀ (by norm_num)] at h1
  have : (2 : ℝ) ^ (23 : Int) = 2 ^ 23 := by norm_num
  rw [this] at h1
  linarith

/-- Sandwich, upper half: rounding does not pass a float above the value. -/
theorem rnd_le_of_le (x c : ℝ) (hc : IsFloat c) (h : x ≤ c) : rnd x ≤ c := by
  obtain ⟨m, k, hm, hk, rfl⟩ := hc
  have hu : (0 : ℝ) < (2 : ℝ) ^ ulpExp x := zpow_pos (by norm_num) _
  have key : ∃ N : Int, x / (2 : ℝ) ^ ulpExp x ≤ (N : ℝ) ∧
      (N : ℝ) * (2 : ℝ) ^ ulpExp x ≤ (m : ℝ) * (2 : ℝ) ^ k := by
    rcases le_or_lt (ulpExp x) k with hE | hE
    · obtain ⟨N, hN⟩ := float_multiple m k (ulpExp x) hE
      refine ⟨N, ?_, hN.le⟩
      rw [div_le_iff₀ hu, hN]
      exact h
    · have hs := float_small m k (ulpExp x) hm hE
      obtain ⟨hs1, hs2⟩ := abs_le.mp hs
      rcases lt_trichotomy x 0 with hx | hx | hx
      · have hl := ulps_large x hx.ne (by omega)
        rw [abs_of_neg hx] at hl
        refine ⟨-2 ^ 23, ?_, ?_⟩
        · rw [div_le_iff₀ hu]
          push_cast
          linarith
        · push_cast
          linarith
      · refine ⟨0, ?_, ?_⟩
        · rw [hx]
          simp
        · rw [hx] at h
          simpa using h
      · have hl := ulps_large x hx.ne' (by omega)
        rw [abs_of_pos hx] at hl
        refine ⟨2 ^ 23, ?_, ?_⟩
        · rw [div_le_iff₀ hu]
          push_cast
          linarith
        · push_cast
          linarith
  obtain ⟨N, hN1, hN2⟩ := key
  unfold rnd
  have hR : ((roundEven (x / (2 : ℝ) ^ ulpExp x) : Int) : ℝ) ≤ (N : ℝ) := by
    exact_mod_cast roundEven_le _ N hN1
  calc _ ≤ (N : ℝ) * (2 : ℝ) ^ ulpExp x := mul_le_mul_of_nonneg_right hR hu.le
    _ ≤ _ := hN2

/-- Sandwich, lower half: rounding does not pass a float below the value. -/
theorem le_rnd_of_le (x c : ℝ) (hc : IsFloat c) (h : c ≤ x) : c ≤ rnd x := by
  obtain ⟨m, k, hm, hk, rfl⟩ := hc
  have hu : (0 : ℝ) < (2 : ℝ) ^ ulpExp x := zpow_pos (by norm_num) _
  have key : ∃ N : Int, (N : ℝ) ≤ x / (2 : ℝ) ^ ulpExp x ∧
      (m : ℝ) * (2 : ℝ) ^ k ≤ (N : ℝ) * (2 : ℝ) ^ ulpExp x := by
    rcases le_or_lt (ulpExp x) k with hE | hE
    · obtain ⟨N, hN⟩ := float_multiple m k (ulpExp x) hE
      refine ⟨N, ?_, hN.ge⟩
      rw [le_div_iff₀ hu, hN]
      exact h
    · have hs := float_small m k (ulpExp x) hm hE
      obtain ⟨hs1, hs2⟩ := abs_le.mp hs
      rcases lt_trichotomy x 0 with hx | hx | hx
      · have hl := ulps_large x hx.ne (by omega)
        rw [abs_of_neg hx] at hl
        refine ⟨-2 ^ 23, ?_, ?_⟩
        · rw [le_div_iff₀ hu]
          push_cast
          linarith
        · push_cast
          linarith
      · refine ⟨0, ?_, ?_⟩
        · rw [hx]
          simp
        · rw [hx] at h
          simpa using h
      · have hl := ulps_large x hx.ne' (by omega)
        rw [abs_of_pos hx] at hl
        refine ⟨2 ^ 23, ?_, ?_⟩
        · rw [le_div_iff₀ hu]
          push_cast
          linarith
        · push_cast
          linarith
  obtain ⟨N, hN1, hN2⟩ := key
  unfold rnd
  have hR : (N : ℝ) ≤ ((roundEven (x / (2 : ℝ) ^ ulpExp x) : Int) : ℝ) := by
    exact_mod_cast le_roundEven _ N hN1
  calc _ ≤ (N : ℝ) * (2 : ℝ) ^ ulpExp x := hN2
    _ ≤ _ := mul_le_mul_of_nonneg_right hR hu.le

/-- A float rounds to itself. -/
theorem rnd_of_isFloat (c : ℝ) (hc : IsFloat c) : rnd c = c :=
  le_antisymm (rnd_le_of_le c c hc le_rfl) (le_rnd_of_le c c hc le_rfl)

/-- An integer of at most 24 bits is a float. -/
theorem isFloat_int (n : Int) (h : |n| ≤ 2 ^ 24) : IsFloat (n : ℝ) :=
  ⟨n, 0, h, by norm_num, by simp⟩

/-- Evaluation of `rnd` at a positive value. -/
theorem rnd_eq_pos (x : ℝ) (m k : Int) (hk : -149 ≤ k) (h1 : (2 : ℝ) ^ (k + 23) ≤ x)
    (h2 : x < (2 : ℝ) ^ (k + 24)) (h3 : (m : ℝ) - 1 / 2 < x / (2 : ℝ) ^ k)
    (h4 : x / (2 : ℝ) ^ k < (m : ℝ) + 1 / 2) : rnd x = (m : ℝ) * (2 : ℝ) ^ k := by
  have hx : 0 < x := lt_of_lt_of_le (zpow_pos (by norm_num) _) h1
  apply rnd_eq x m k hk
  · rw [abs_of_pos hx]
    exact h1
  · rw [abs_of_pos hx]
    exact h2
  · rw [abs_lt]
    constructor <;> linarith

/-- Evaluation of `rnd` at a negative value. -/
theorem rnd_eq_neg (x : ℝ) (m k : Int) (hk : -149 ≤ k) (h1 : (2 : ℝ) ^ (k + 23) ≤ -x)
    (h2 : -x < (2 : ℝ) ^ (k + 24)) (h3 : (m : ℝ) - 1 / 2 < x / (2 : ℝ) ^ k)
    (h4 : x / (2 : ℝ) ^ k < (m : ℝ) + 1 / 2) : rnd x = (m : ℝ) * (2 : ℝ) ^ k := by
  have hx : x < 0 := by
    have := lt_of_lt_of_le (zpow_pos (by norm_num : (0 : ℝ) < 2) (k + 23)) h1
    linarith
  apply rnd_eq x m k hk
  · rw [abs_of_neg hx]
    exact h1
  · rw [abs_of_neg hx]
    exact h2
  · rw [abs_lt]
    constructor <;> linarith

/-- A natural number of at most 24 bits is a float. -/
theorem isFloat_nat (n : Nat) (h : n ≤ 2 ^ 24) : IsFloat (n : ℝ) := by
  have := isFloat_int (n : Int) (by rw [abs_of_nonneg (by positivity)]; exact_mod_cast h)
  simpa using this

/-- A natural number of at most 24 bits converts to float exactly. -/
theorem rnd_natCast (n : Nat) (h : n ≤ 2 ^ 24) : rnd (n : ℝ) = (n : ℝ) :=
  rnd_of_isFloat _ (isFloat_nat n h)

/-- Rounding keeps the sign of a value that is not negative. -/
theorem rnd_nonneg (x : ℝ) (h : 0 ≤ x) : 0 ≤ rnd x := by
  have := le_rnd_of_le x 0 (by simpa using isFloat_nat 0 (by norm_num)) h
  exact this

/-- The float literal `1.2f`. -/
theorem rnd_12 : rnd 1.2 = 10066330 / 8388608 := by
  rw [rnd_eq_pos 1.2 10066330 (-23) (by norm_num) (by norm_num) (by norm_num)
    (by norm_num) (by norm_num)]
  norm_num

/-- An `int` result inside the 32-bit range is not changed by the wrap. -/
theorem wrap32_eq (z : Int) (h1 : -2 ^ 31 ≤ z) (h2 : z < 2 ^ 31) : wrap32 z = z := by
  unfold wrap32
  omega

/-! ## Bounding boxes: half-width, centre and the fields of the box -/

/-- Truncation of a float that is not negative is the floor. -/
theorem toInt_of_nonneg (v : ℝ) (h : 0 ≤ v) : toInt v = ⌊v⌋ := by
  unfold toInt
  rw [if_pos h]

/-- Truncation of an integral value that is not negative. -/
theorem toInt_natCast (n : Nat) : toInt (n : ℝ) = (n : Int) := by
  rw [toInt_of_nonneg _ (Nat.cast_nonneg n)]
  exact_mod_cast Int.floor_natCast n

/-- Truncation of a float that is not negative is not negative. -/
theorem toInt_nonneg (v : ℝ) (h : 0 ≤ v) : 0 ≤ toInt v := by
  rw [toInt_of_nonneg v h]
  exact Int.floor_nonneg.mpr h

/-- Truncation of a value `≥ 0` that is at least the integer `n` is at least `n`. -/
theorem le_toInt (v : ℝ) (n : Int) (h0 : 0 ≤ v) (h : (n : ℝ) ≤ v) : n ≤ toInt v := by
  rw [toInt_of_nonneg v h0]
  exact Int.le_floor.mpr h

/-- Truncation of a value `≥ 0` that is at most the integer `n` is at most `n`. -/
theorem toInt_le (v : ℝ) (n : Int) (h0 : 0 ≤ v) (h : v ≤ (n : ℝ)) : toInt v ≤ n := by
  rw [toInt_of_nonneg v h0]
  have h1 : ⌊v⌋ ≤ ⌊(n : ℝ)⌋ := Int.floor_mono h
  rwa [Int.floor_intCast] at h1

/-- The float operand of the half-width before the conversion is not negative for a
radius that is not negative. -/
theorem halfWidth_arg_nonneg (radius : ℝ) (hr : 0 ≤ radius) :
    0 ≤ rnd (rnd (rnd (radius * INFLUENCE_RADIUS) / (GRID_SCALE : ℝ)) * rnd 1.2) := by
  have h1 : 0 ≤ rnd (radius * INFLUENCE_RADIUS) :=
    rnd_nonneg _ (by unfold INFLUENCE_RADIUS; positivity)
  have h2 : 0 ≤ rnd (rnd (radius * INFLUENCE_RADIUS) / (GRID_SCALE : ℝ)) :=
    rnd_nonneg _ (by unfold GRID_SCALE; positivity)
  have h3 : (0 : ℝ) ≤ rnd 1.2 := by rw [rnd_12]; norm_num
  exact rnd_nonneg _ (mul_nonneg h2 h3)

/-- The half-width of a radius that is not negative is not negative. -/
theorem halfWidth_nonneg (radius : ℝ) (hr : 0 ≤ radius) : 0 ≤ halfWidth radius :=
  toInt_nonneg _ (halfWidth_arg_nonneg radius hr)

/-- A lower bound of the half-width through floats below each intermediate value. -/
theorem halfWidth_ge (radius p : ℝ) (n : Nat) (hr : 0 ≤ radius) (hp : IsFloat p)
    (hp2 : IsFloat (p / 2)) (hn : n ≤ 2 ^ 24) (h1 : p ≤ radius * 200)
    (h2 : (n : ℝ) ≤ p / 2 * (10066330 / 8388608)) : (n : Int) ≤ halfWidth radius := by
  have a1 : p ≤ rnd (radius * INFLUENCE_RADIUS) :=
    le_rnd_of_le _ p hp (by unfold INFLUENCE_RADIUS; exact h1)
  have a2 : p / 2 ≤ rnd (rnd (radius * INFLUENCE_RADIUS) / (GRID_SCALE : ℝ)) := by
    apply le_rnd_of_le _ _ hp2
    unfold GRID_SCALE
    push_cast
    linarith
  have hp0 : 0 ≤ p / 2 := by
    have : (0 : ℝ) ≤ (n : ℝ) := Nat.cast_nonneg n
    by_contra hneg
    push_neg at hneg
    have : p / 2 * (10066330 / 8388608) < 0 := mul_neg_of_neg_of_pos hneg (by norm_num)
    linarith
  have a3 : (n : ℝ) ≤
      rnd (rnd (rnd (radius * INFLUENCE_RADIUS) / (GRID_SCALE : ℝ)) * rnd 1.2) := by
    apply le_rnd_of_le _ _ (isFloat_nat n hn)
    rw [rnd_12]
    calc (n : ℝ) ≤ p / 2 * (10066330 / 8388608) := h2
      _ ≤ _ := mul_le_mul_of_nonneg_right a2 (by norm_num)
  unfold halfWidth
  apply le_toInt _ _ (halfWidth_arg_nonneg radius hr)
  exact_mod_cast a3

/-- An upper bound of the half-width through floats above each intermediate value. -/
theorem halfWidth_le (radius p : ℝ) (n : Nat) (hr : 0 ≤ radius) (hp : IsFloat p)
    (hp2 : IsFloat (p / 2)) (hn : IsFloat (n : ℝ)) (h1 : radius * 200 ≤ p)
    (h2 : p / 2 * (10066330 / 8388608) ≤ (n : ℝ)) : halfWidth radius ≤ (n : Int) := by
  have a1 : rnd (radius * INFLUENCE_RADIUS) ≤ p :=
    rnd_le_of_le _ p hp (by unfold INFLUENCE_RADIUS; exact h1)
  have a2 : rnd (rnd (radius * INFLUENCE_RADIUS) / (GRID_SCALE : ℝ)) ≤ p / 2 := by
    apply rnd_le_of_le _ _ hp2
    unfold GRID_SCALE
    push_cast
    linarith
  have a3 : rnd (rnd (rnd (radius * INFLUENCE_RADIUS) / (GRID_SCALE : ℝ)) * rnd 1.2) ≤
      (n : ℝ) := by
    apply rnd_le_of_le _ _ hn
    rw [rnd_12]
    calc _ ≤ p / 2 * (10066330 / 8388608) := mul_le_mul_of_nonneg_right a2 (by norm_num)
      _ ≤ (n : ℝ) := h2
  unfold halfWidth
  apply toInt_le _ _ (halfWidth_arg_nonneg radius hr)
  exact_mod_cast a3

/-- The half-width of a radius in `[0, 8000000]` is at most `10 ^ 9`, so that its
double stays inside the `int` range. -/
theorem halfWidth_le_billion (radius : ℝ) (hr : 0 ≤ radius) (hR : radius ≤ 8000000) :
    halfWidth radius ≤ 1000000000 := by
  have h := halfWidth_le radius 1600000000 1000000000 hr
    ⟨12500000, 7, by norm_num, by norm_num, by norm_num⟩
    ⟨12500000, 6, by norm_num, by norm_num, by norm_num⟩
    ⟨1953125, 9, by norm_num, by norm_num, by norm_num⟩
    (by linarith) (by norm_num)
  exact_mod_cast h

/-- The half-width of a radius of at least `101 / 120` is at least 101 cells. -/
theorem halfWidth_ge_101 (radius : ℝ) (hr : 101 / 120 ≤ radius) : 101 ≤ halfWidth radius := by
  have h := halfWidth_ge radius (11031893 / 65536) 101 (by linarith)
    ⟨11031893, -16, by norm_num, by norm_num, by norm_num⟩
    ⟨11031893, -17, by norm_num, by norm_num, by norm_num⟩
    (by norm_num) (by linarith) (by norm_num)
  exact_mod_cast h

/-- The half-width of a radius of at least 8 is at least 960 cells. -/
theorem halfWidth_ge_960 (radius : ℝ) (hr : 8 ≤ radius) : 960 ≤ halfWidth radius := by
  have h := halfWidth_ge radius 1600 960 (by linarith)
    (by simpa using isFloat_nat 1600 (by norm_num))
    (by
      have := isFloat_nat 800 (by norm_num)
      have e : (1600 : ℝ) / 2 = ((800 : Nat) : ℝ) := by norm_num
      rw [e]
      exact this)
    (by norm_num) (by linarith) (by norm_num)
  exact_mod_cast h

/-- The cell coordinate of a position in `[0, 2 * n]` lies in `[0, n]`. -/
theorem cellOf_range (p : ℝ) (n : Nat) (hn : n ≤ 2 ^ 24) (h0 : 0 ≤ p)
    (h1 : p ≤ 2 * (n : ℝ)) : 0 ≤ cellOf p ∧ cellOf p ≤ (n : Int) := by
  have hg : ((GRID_SCALE : Nat) : ℝ) = 2 := by unfold GRID_SCALE; norm_num
  have a0 : 0 ≤ rnd (p / (GRID_SCALE : ℝ)) := rnd_nonneg _ (by rw [hg]; linarith)
  have a1 : rnd (p / (GRID_SCALE : ℝ)) ≤ (n : ℝ) :=
    rnd_le_of_le _ _ (isFloat_nat n hn) (by rw [hg]; linarith)
  unfold cellOf
  exact ⟨toInt_nonneg _ a0, toInt_le _ _ a0 (by exact_mod_cast a1)⟩

/-- The cell coordinate of a position `p` in `[0, 2 ^ 24]` is `⌊p / 2⌋` or one more
(one more only if the division rounds up to the next integer). -/
theorem cellOf_near (p : ℝ) (h0 : 0 ≤ p) (h1 : p ≤ 2 ^ 24) :
    ⌊p / 2⌋ ≤ cellOf p ∧ cellOf p ≤ ⌊p / 2⌋ + 1 := by
  have hg : ((GRID_SCALE : Nat) : ℝ) = 2 := by unfold GRID_SCALE; norm_num
  have hf0 : 0 ≤ ⌊p / 2⌋ := Int.floor_nonneg.mpr (by linarith)
  have hfu : ⌊p / 2⌋ + 1 ≤ 2 ^ 24 := by
    have : ⌊p / 2⌋ ≤ ⌊((2 ^ 23 : Int) : ℝ)⌋ := Int.floor_mono (by push_cast; linarith)
    rw [Int.floor_intCast] at this
    omega
  have a0 : 0 ≤ rnd (p / (GRID_SCALE : ℝ)) := rnd_nonneg _ (by rw [hg]; linarith)
  have a1 : ((⌊p / 2⌋ : Int) : ℝ) ≤ rnd (p / (GRID_SCALE : ℝ)) := by
    apply le_rnd_of_le _ _ (isFloat_int _ (by rw [abs_of_nonneg hf0]; omega))
    rw [hg]
    exact Int.floor_le _
  have a2 : rnd (p / (GRID_SCALE : ℝ)) ≤ ((⌊p / 2⌋ + 1 : Int) : ℝ) := by
    apply rnd_le_of_le _ _ (isFloat_int _ (by rw [abs_of_nonneg (by omega)]; omega))
    rw [hg]
    push_cast
    exact (Int.lt_floor_add_one _).le
  unfold cellOf
  exact ⟨le_toInt _ _ a0 a1, toInt_le _ _ a0 a2⟩

/-- The four fields of the refreshed box in terms of the half-width and the centre. -/
theorem UpdateBallBounds_bounds (ball : Ball) :
    (UpdateBallBounds ball).bounds.x =
      max 0 (wrap32 (cellOf ball.pos.x - halfWidth ball.radius)) ∧
    (UpdateBallBounds ball).bounds.y =
      max 0 (wrap32 (cellOf ball.pos.y - halfWidth ball.radius)) ∧
    (UpdateBallBounds ball).bounds.w =
      min (wrap32 (halfWidth ball.radius * 2))
        (wrap32 (960 - (UpdateBallBounds ball).bounds.x)) ∧
    (UpdateBallBounds ball).bounds.h =
      min (wrap32 (halfWidth ball.radius * 2))
        (wrap32 (600 - (UpdateBallBounds ball).bounds.y)) := by
  simp [UpdateBallBounds, GRID_SCALE, WIDTH, HEIGHT]

/-- The four fields of the refreshed box when no `int` operation wraps: half-width in
`[0, 10 ^ 9]`, centre in `[0, 960] x [0, 600]`. -/
theorem UpdateBallBounds_nowrap (ball : Ball) (hw0 : 0 ≤ halfWidth ball.radius)
    (hw1 : halfWidth ball.radius ≤ 1000000000)
    (hx0 : 0 ≤ cellOf ball.pos.x) (hx1 : cellOf ball.pos.x ≤ 960)
    (hy0 : 0 ≤ cellOf ball.pos.y) (hy1 : cellOf ball.pos.y ≤ 600) :
    (UpdateBallBounds ball).bounds.x = max 0 (cellOf ball.pos.x - halfWidth ball.radius) ∧
    (UpdateBallBounds ball).bounds.y = max 0 (cellOf ball.pos.y - halfWidth ball.radius) ∧
    (UpdateBallBounds ball).bounds.w =
      min (halfWidth ball.radius * 2) (960 - (UpdateBallBounds ball).bounds.x) ∧
    (UpdateBallBounds ball).bounds.h =
      min (halfWidth ball.radius * 2) (600 - (UpdateBallBounds ball).bounds.y) := by
  obtain ⟨bx, by1, bw, bh⟩ := UpdateBallBounds_bounds ball
  have e1 := wrap32_eq (cellOf ball.pos.x - halfWidth ball.radius) (by omega) (by omega)
  have e2 := wrap32_eq (cellOf ball.pos.y - halfWidth ball.radius) (by omega) (by omega)
  have e3 := wrap32_eq (halfWidth ball.radius * 2) (by omega) (by omega)
  rw [e1] at bx
  rw [e2] at by1
  have e4 := wrap32_eq (960 - (UpdateBallBounds ball).bounds.x) (by rw [bx]; omega)
    (by rw [bx]; omega)
  have e5 := wrap32_eq (600 - (UpdateBallBounds ball).bounds.y) (by rw [by1]; omega)
    (by rw [by1]; omega)
  rw [e3, e4] at bw
  rw [e3, e5] at bh
  exact ⟨bx, by1, bw, bh⟩

/-! ## Bounding boxes against the influence disc -/

/-- An integer of at most 24 bits, as a real, rounds to itself. -/
theorem rnd_intCast (n : Int) (h : |n| ≤ 2 ^ 24) : rnd (n : ℝ) = (n : ℝ) :=
  rnd_of_isFloat _ (isFloat_int n h)

/-- The rounded difference `rnd (c - p)` is at least 200 in magnitude when the exact
difference is. -/
theorem rnd_far (a : ℝ) (h : 200 ≤ |a|) : 40000 ≤ rnd a * rnd a := by
  have f200 : IsFloat (200 : ℝ) := by simpa using isFloat_nat 200 (by norm_num)
  have fm200 : IsFloat (-200 : ℝ) := by simpa using isFloat_int (-200) (by norm_num)
  rcases le_abs'.mp h with h1 | h1
  · have := rnd_le_of_le a (-200) fm200 h1
    nlinarith
  · have := le_rnd_of_le a 200 f200 h1
    nlinarith

/-- The distance the machine computes is at least 200 when one of the two rounded
coordinate differences has a square of at least 40000. -/
theorem distance_far (dx dy : ℝ) (h : 40000 ≤ dx * dx ∨ 40000 ≤ dy * dy) :
    200 ≤ rnd (Real.sqrt (rnd (rnd (dx * dx) + rnd (dy * dy)))) := by
  have f200 : IsFloat (200 : ℝ) := by simpa using isFloat_nat 200 (by norm_num)
  have f4 : IsFloat (40000 : ℝ) := by simpa using isFloat_nat 40000 (by norm_num)
  have hx0 : 0 ≤ rnd (dx * dx) := rnd_nonneg _ (mul_self_nonneg dx)
  have hy0 : 0 ≤ rnd (dy * dy) := rnd_nonneg _ (mul_self_nonneg dy)
  have hs : 40000 ≤ rnd (dx * dx) + rnd (dy * dy) := by
    rcases h with h | h
    · have := le_rnd_of_le _ 40000 f4 h
      linarith
    · have := le_rnd_of_le _ 40000 f4 h
      linarith
  have hs2 : 40000 ≤ rnd (rnd (dx * dx) + rnd (dy * dy)) := le_rnd_of_le _ 40000 f4 hs
  apply le_rnd_of_le _ 200 f200
  apply Real.le_sqrt_of_sq_le
  norm_num
  exact hs2

/-- A grid cell whose computed distance to a ball is below 200 is nearer than 200 along
each axis, in exact arithmetic. -/
theorem cellDistance_axes (ball : Ball) (row col : Int) (hg : inGrid row col)
    (hd : cellDistance ball row col < INFLUENCE_RADIUS) :
    |(col : ℝ) * 2 - ball.pos.x| < 200 ∧ |(row : ℝ) * 2 - ball.pos.y| < 200 := by
  unfold inGrid at hg
  have hc : rnd ((col * ((GRID_SCALE : Nat) : Int) : Int) : ℝ) = (col : ℝ) * 2 := by
    rw [rnd_intCast _ (by unfold GRID_SCALE; rw [abs_of_nonneg (by omega)]; omega)]
    unfold GRID_SCALE
    push_cast
    ring
  have hr : rnd ((row * ((GRID_SCALE : Nat) : Int) : Int) : ℝ) = (row : ℝ) * 2 := by
    rw [rnd_intCast _ (by unfold GRID_SCALE; rw [abs_of_nonneg (by omega)]; omega)]
    unfold GRID_SCALE
    push_cast
    ring
  unfold cellDistance INFLUENCE_RADIUS at hd
  simp only [hc, hr] at hd
  constructor
  · by_contra hcon
    push_neg at hcon
    have := distance_far _ (rnd ((row : ℝ) * 2 - ball.pos.y)) (Or.inl (rnd_far _ hcon))
    linarith
  · by_contra hcon
    push_neg at hcon
    have := distance_far (rnd ((col : ℝ) * 2 - ball.pos.x)) _ (Or.inr (rnd_far _ hcon))
    linarith

/-- A cell whose exact distance to a ball is below 200 is nearer than 200 along each
axis. -/
theorem exactDistance_axes (ball : Ball) (row col : Int)
    (hd : exactDistance ball row col < INFLUENCE_RADIUS) :
    |(col : ℝ) * 2 - ball.pos.x| < 200 ∧ |(row : ℝ) * 2 - ball.pos.y| < 200 := by
  unfold exactDistance INFLUENCE_RADIUS at hd
  simp only [Int.cast_mul, Int.cast_ofNat] at hd
  constructor
  · refine lt_of_le_of_lt (Real.abs_le_sqrt ?_) hd
    nlinarith [sq_nonneg ((row : ℝ) * 2 - ball.pos.y)]
  · refine lt_of_le_of_lt (Real.abs_le_sqrt ?_) hd
    nlinarith [sq_nonneg ((col : ℝ) * 2 - ball.pos.x)]

/-- One axis of the containment test: a cell coordinate `c` in `[0, n)` within 200 of a
position `p`, a centre `cx` that is `⌊p / 2⌋` or one more, and a half-width of at least
101. -/
theorem axis_contained (p : ℝ) (c cx hw n : Int) (hcx0 : ⌊p / 2⌋ ≤ cx)
    (hcx1 : cx ≤ ⌊p / 2⌋ + 1) (hhw : 101 ≤ hw) (hc0 : 0 ≤ c)
    (hcn : c < n) (hd : |(c : ℝ) * 2 - p| < 200) :
    c ≥ max 0 (cx - hw) ∧ c < max 0 (cx - hw) + min (hw * 2) (n - max 0 (cx - hw)) := by
  obtain ⟨hlo, hhi⟩ := abs_lt.mp hd
  have hfl : ((⌊p / 2⌋ : Int) : ℝ) ≤ p / 2 := Int.floor_le _
  have hfu : p / 2 < ((⌊p / 2⌋ : Int) : ℝ) + 1 := Int.lt_floor_add_one _
  have h1 : ((⌊p / 2⌋ : Int) : ℝ) - 100 < (c : ℝ) := by linarith
  have h2 : (c : ℝ) < ((⌊p / 2⌋ : Int) : ℝ) + 101 := by linarith
  have h1z : ⌊p / 2⌋ - 100 < c := by exact_mod_cast h1
  have h2z : c < ⌊p / 2⌋ + 101 := by exact_mod_cast h2
  omega

/-- The half-width and the centre of `smallBall`: 60 cells around `(480, 300)`. -/
theorem smallBall_trunc :
    halfWidth smallBall.radius = 60 ∧ cellOf smallBall.pos.x = 480 ∧
    cellOf smallBall.pos.y = 300 := by
  have h100 : rnd (100 : ℝ) = 100 := by exact_mod_cast rnd_natCast 100 (by norm_num)
  have h50 : rnd (50 : ℝ) = 50 := by exact_mod_cast rnd_natCast 50 (by norm_num)
  have h480 : rnd (480 : ℝ) = ((480 : Nat) : ℝ) := by
    exact_mod_cast rnd_natCast 480 (by norm_num)
  have h300 : rnd (300 : ℝ) = ((300 : Nat) : ℝ) := by
    exact_mod_cast rnd_natCast 300 (by norm_num)
  refine ⟨?_, ?_, ?_⟩
  · have e1 : smallBall.radius * INFLUENCE_RADIUS = 100 := by
      simp only [smallBall, INFLUENCE_RADIUS]
      norm_num
    have e2 : (100 : ℝ) / ((GRID_SCALE : Nat) : ℝ) = 50 := by
      unfold GRID_SCALE
      norm_num
    have e3 : rnd ((50 : ℝ) * (10066330 / 8388608)) = (15728641 : Int) * (2 : ℝ) ^ (-18 : Int) :=
      rnd_eq_pos _ 15728641 (-18) (by norm_num) (by norm_num) (by norm_num) (by norm_num)
        (by norm_num)
    unfold halfWidth
    rw [e1, h100, e2, h50, rnd_12, e3, toInt_of_nonneg _ (by norm_num)]
    rw [Int.floor_eq_iff]
    norm_num
  · have e : smallBall.pos.x / ((GRID_SCALE : Nat) : ℝ) = 480 := by
      simp only [smallBall, GRID_SCALE]
      norm_num
    unfold cellOf
    rw [e, h480, toInt_natCast]
    rfl
  · have e : smallBall.pos.y / ((GRID_SCALE : Nat) : ℝ) = 300 := by
      simp only [smallBall, GRID_SCALE]
      norm_num
    unfold cellOf
    rw [e, h300, toInt_natCast]
    rfl

/-- The distance from `smallBall` to the cell `(col 400, row 300)`, as the machine
computes it and in exact arithmetic. -/
theorem smallBall_distance :
    cellDistance smallBall 300 400 = 160 ∧ exactDistance smallBall 300 400 = 160 := by
  constructor
  · have e1 : rnd (((400 : Int) * ((GRID_SCALE : Nat) : Int) : Int) : ℝ) = 800 := by
      have := rnd_natCast 800 (by norm_num)
      unfold GRID_SCALE
      norm_num
      exact_mod_cast this
    have e2 : rnd (((300 : Int) * ((GRID_SCALE : Nat) : Int) : Int) : ℝ) = 600 := by
      have := rnd_natCast 600 (by norm_num)
      unfold GRID_SCALE
      norm_num
      exact_mod_cast this
    have e3 : rnd ((800 : ℝ) - 960) = -160 := by
      have := rnd_intCast (-160) (by norm_num)
      norm_num at this ⊢
      exact this
    have e4 : rnd ((600 : ℝ) - 600) = 0 := by
      rw [sub_self]
      exact rnd_zero
    have e5 : rnd ((-160 : ℝ) * -160) = 25600 := by
      have := rnd_natCast 25600 (by norm_num)
      norm_num at this ⊢
      exact this
    have e6 : rnd ((0 : ℝ) * 0) = 0 := by
      rw [mul_zero]
      exact rnd_zero
    have e7 : rnd ((25600 : ℝ) + 0) = 25600 := by
      have := rnd_natCast 25600 (by norm_num)
      norm_num at this ⊢
      exact this
    have e8 : Real.sqrt (25600 : ℝ) = 160 := by
      have : (25600 : ℝ) = 160 * 160 := by norm_num
      rw [this]
      exact Real.sqrt_mul_self (by norm_num)
    have e9 : rnd (160 : ℝ) = 160 := by exact_mod_cast rnd_natCast 160 (by norm_num)
    simp only [cellDistance, smallBall]
    rw [e1, e2, e3, e4, e5, e6, e7, e8, e9]
  · simp only [exactDistance, smallBall]
    have : (((400 * 2 : Int) : ℝ) - 960) ^ 2 + (((300 * 2 : Int) : ℝ) - 600) ^ 2 =
        160 * 160 := by norm_num
    rw [this]
    exact Real.sqrt_mul_self (by norm_num)

/-- The claim C7 as stated fails for a small radius: the ball `smallBall` (radius one
half, position `(960, 600)`) gets the box `x 420, y 240, w 120, h 120`, and the cell
`(col 400, row 300)`, at distance 160 from it, fails the containment test. -/
theorem small_radius_box_misses_cell :
    (0 ≤ smallBall.pos.x ∧ smallBall.pos.x ≤ (WIDTH : ℝ) ∧ 0 ≤ smallBall.pos.y ∧
      smallBall.pos.y ≤ (HEIGHT : ℝ) ∧ 0 < smallBall.radius) ∧
    cellDistance smallBall 300 400 = 160 ∧
    cellDistance smallBall 300 400 < INFLUENCE_RADIUS ∧
    (UpdateBallBounds smallBall).bounds.x = 420 ∧
    (UpdateBallBounds smallBall).bounds.y = 240 ∧
    (UpdateBallBounds smallBall).bounds.w = 120 ∧
    (UpdateBallBounds smallBall).bounds.h = 120 ∧
    ¬ inBounds (UpdateBallBounds smallBall).bounds 300 400 := by
  obtain ⟨hd, _⟩ := smallBall_distance
  obtain ⟨hr, hx, hy⟩ := smallBall_trunc
  obtain ⟨bx, by1, bw, bh⟩ := UpdateBallBounds_bounds smallBall
  rw [hr, hx] at bx
  rw [hr, hy] at by1
  rw [hr] at bw bh
  have bx1 : (UpdateBallBounds smallBall).bounds.x = 420 := by rw [bx]; decide
  have by2 : (UpdateBallBounds smallBall).bounds.y = 240 := by rw [by1]; decide
  have bw1 : (UpdateBallBounds smallBall).bounds.w = 120 := by rw [bw, bx1]; decide
  have bh1 : (UpdateBallBounds smallBall).bounds.h = 120 := by rw [bh, by2]; decide
  refine ⟨?_, hd, ?_, bx1, by2, bw1, bh1, ?_⟩
  · simp only [smallBall, WIDTH, HEIGHT]
    norm_num
  · rw [hd]
    unfold INFLUENCE_RADIUS
    norm_num
  · unfold inBounds
    rw [bx1]
    omega

/-- C7, amended: for a ball with position inside `[0, WIDTH] x [0, HEIGHT]` and radius
in `[101 / 120, 8000000]` (the truncated half-width is then at least 101 cells and its
double fits an `int`; every radius `20 .. 39` of `Init` is such), every grid cell
`0 ≤ col < 960`, `0 ≤ row < 600` whose distance to the ball is below `INFLUENCE_RADIUS`,
be it the distance the compositor computes or the exact one, passes the containment
test of the box that `UpdateBallBounds` produces. -/
theorem UpdateBallBounds_conservative (ball : Ball) (row col : Int)
    (hx0 : 0 ≤ ball.pos.x) (hx1 : ball.pos.x ≤ (WIDTH : ℝ))
    (hy0 : 0 ≤ ball.pos.y) (hy1 : ball.pos.y ≤ (HEIGHT : ℝ))
    (hr : 101 / 120 ≤ ball.radius) (hR : ball.radius ≤ 8000000)
    (hc0 : 0 ≤ col) (hc1 : col < 960) (hr0 : 0 ≤ row) (hr1 : row < 600)
    (hd : cellDistance ball row col < INFLUENCE_RADIUS ∨
      exactDistance ball row col < INFLUENCE_RADIUS) :
    inBounds (UpdateBallBounds ball).bounds row col := by
  have hW : ball.pos.x ≤ 1920 := by
    unfold WIDTH at hx1
    exact_mod_cast hx1
  have hH : ball.pos.y ≤ 1200 := by
    unfold HEIGHT at hy1
    exact_mod_cast hy1
  have hax : |(col : ℝ) * 2 - ball.pos.x| < 200 ∧ |(row : ℝ) * 2 - ball.pos.y| < 200 := by
    rcases hd with hd | hd
    · exact cellDistance_axes ball row col ⟨hc0, hc1, hr0, hr1⟩ hd
    · exact exactDistance_axes ball row col hd
  obtain ⟨dx, dy⟩ := hax
  have hr0' : (0 : ℝ) ≤ ball.radius := by linarith
  have hw := halfWidth_ge_101 ball.radius hr
  have hw1 := halfWidth_le_billion ball.radius hr0' hR
  obtain ⟨cx0, cx1⟩ := cellOf_range ball.pos.x 960 (by norm_num) hx0 (by push_cast; linarith)
  obtain ⟨cy0, cy1⟩ := cellOf_range ball.pos.y 600 (by norm_num) hy0 (by push_cast; linarith)
  obtain ⟨nx0, nx1⟩ := cellOf_near ball.pos.x hx0 (by linarith)
  obtain ⟨ny0, ny1⟩ := cellOf_near ball.pos.y hy0 (by linarith)
  obtain ⟨bx, by1, bw, bh⟩ := UpdateBallBounds_nowrap ball (by omega) hw1 cx0
    (by exact_mod_cast cx1) cy0 (by exact_mod_cast cy1)
  obtain ⟨ax0, ax1⟩ := axis_contained ball.pos.x col _ _ 960 nx0 nx1 hw hc0 hc1 dx
  obtain ⟨ay0, ay1⟩ := axis_contained ball.pos.y row _ _ 600 ny0 ny1 hw hr0 hr1 dy
  unfold inBounds
  rw [bw, bh, bx, by1]
  exact ⟨ax0, ax1, ay0, ay1⟩

/-- Witness of C7, amended: a ball of radius 20 at `(960, 600)` and the cell
`(col 400, row 300)`, at distance 160. -/
theorem UpdateBallBounds_conservative_witness :
    inBounds (UpdateBallBounds ⟨⟨960, 600⟩, ⟨1, 0⟩, 20, red, ⟨0, 0, 0, 0⟩, 1⟩).bounds
      300 400 :=
  UpdateBallBounds_conservative ⟨⟨960, 600⟩, ⟨1, 0⟩, 20, red, ⟨0, 0, 0, 0⟩, 1⟩ 300 400
    (by norm_num) (by norm_num [WIDTH]) (by norm_num) (by norm_num [HEIGHT])
    (by norm_num) (by norm_num) (by norm_num) (by norm_num) (by norm_num) (by norm_num)
    (Or.inr (by
      have e : exactDistance ⟨⟨960, 600⟩, ⟨1, 0⟩, 20, red, ⟨0, 0, 0, 0⟩, 1⟩ 300 400 =
          Real.sqrt (160 * 160) := by
        simp only [exactDistance]
        norm_num
      rw [e, Real.sqrt_mul_self (by norm_num)]
      unfold INFLUENCE_RADIUS
      norm_num))

/-- A ball with radius in `[8, 8000000]` and position inside the screen gets the box
`x 0, y 0, w 960, h 600`. -/
theorem wide_box (ball : Ball) (hx0 : 0 ≤ ball.pos.x) (hx1 : ball.pos.x ≤ 1920)
    (hy0 : 0 ≤ ball.pos.y) (hy1 : ball.pos.y ≤ 1200) (hr : 8 ≤ ball.radius)
    (hR : ball.radius ≤ 8000000) :
    (UpdateBallBounds ball).bounds.x = 0 ∧ (UpdateBallBounds ball).bounds.y = 0 ∧
    (UpdateBallBounds ball).bounds.w = 960 ∧ (UpdateBallBounds ball).bounds.h = 600 := by
  have hw := halfWidth_ge_960 ball.radius hr
  have hw1 := halfWidth_le_billion ball.radius (by linarith) hR
  obtain ⟨cx0, cx1⟩ := cellOf_range ball.pos.x 960 (by norm_num) hx0 (by push_cast; linarith)
  obtain ⟨cy0, cy1⟩ := cellOf_range ball.pos.y 600 (by norm_num) hy0 (by push_cast; linarith)
  obtain ⟨bx, by1, bw, bh⟩ := UpdateBallBounds_nowrap ball (by omega) hw1 cx0
    (by exact_mod_cast cx1) cy0 (by exact_mod_cast cy1)
  have bx0 : (UpdateBallBounds ball).bounds.x = 0 := by
    rw [bx]
    omega
  have by0 : (UpdateBallBounds ball).bounds.y = 0 := by
    rw [by1]
    omega
  refine ⟨bx0, by0, ?_, ?_⟩
  · rw [bw, bx0]
    omega
  · rw [bh, by0]
    omega

/-- A ball with radius in `[8, 8000000]` and position inside the screen has a box that
contains every cell of the grid. -/
theorem wide_box_contains (ball : Ball) (row col : Int) (hx0 : 0 ≤ ball.pos.x)
    (hx1 : ball.pos.x ≤ 1920) (hy0 : 0 ≤ ball.pos.y) (hy1 : ball.pos.y ≤ 1200)
    (hr : 8 ≤ ball.radius) (hR : ball.radius ≤ 8000000)
    (hc0 : 0 ≤ col) (hc1 : col < 960) (hr0 : 0 ≤ row) (hr1 : row < 600) :
    inBounds (UpdateBallBounds ball).bounds row col := by
  obtain ⟨bx, by1, bw, bh⟩ := wide_box ball hx0 hx1 hy0 hy1 hr hR
  unfold inBounds
  rw [bx, by1, bw, bh]
  omega

/-- The distance the machine computes from a difference of `dx` along x and none
along y, when `dx` and its square are floats. -/
theorem distance_on_axis (dx : ℝ) (h1 : IsFloat dx) (h2 : IsFloat (dx * dx))
    (h3 : IsFloat |dx|) :
    rnd (Real.sqrt (rnd (rnd (rnd dx * rnd dx) + rnd (rnd 0 * rnd 0)))) = |dx| := by
  rw [rnd_zero, mul_zero, rnd_zero, add_zero, rnd_of_isFloat dx h1, rnd_of_isFloat _ h2,
    rnd_of_isFloat _ h2, Real.sqrt_mul_self_eq_abs, rnd_of_isFloat _ h3]

/-- The machine's distance from a ball to the cell `(row, col)` when the ball lies on
the row of the cell centre and every intermediate value is a float. -/
theorem cellDistance_on_row (ball : Ball) (row col : Int) (hg : inGrid row col)
    (hy : ball.pos.y = (row : ℝ) * 2)
    (h1 : IsFloat ((col : ℝ) * 2 - ball.pos.x))
    (h2 : IsFloat (((col : ℝ) * 2 - ball.pos.x) * ((col : ℝ) * 2 - ball.pos.x)))
    (h3 : IsFloat |(col : ℝ) * 2 - ball.pos.x|) :
    cellDistance ball row col = |(col : ℝ) * 2 - ball.pos.x| := by
  unfold inGrid at hg
  have hc : rnd ((col * ((GRID_SCALE : Nat) : Int) : Int) : ℝ) = (col : ℝ) * 2 := by
    rw [rnd_intCast _ (by unfold GRID_SCALE; rw [abs_of_nonneg (by omega)]; omega)]
    unfold GRID_SCALE
    push_cast
    ring
  have hr : rnd ((row * ((GRID_SCALE : Nat) : Int) : Int) : ℝ) = (row : ℝ) * 2 := by
    rw [rnd_intCast _ (by unfold GRID_SCALE; rw [abs_of_nonneg (by omega)]; omega)]
    unfold GRID_SCALE
    push_cast
    ring
  unfold cellDistance
  simp only [hc, hr, hy, sub_self]
  have := distance_on_axis _ h1 h2 h3
  rw [rnd_of_isFloat _ h1] at this
  rw [rnd_of_isFloat _ h1]
  rw [rnd_zero] at this ⊢
  exact this

/-- The zero is a float. -/
theorem isFloat_zero : IsFloat (0 : ℝ) := by
  simpa using isFloat_nat 0 (by norm_num)

/-- A ball at `(960, 600)` is at distance 0 from the centre cell `(row 300, col 480)`,
also as the machine computes it. -/
theorem centre_distance (ball : Ball) (hx : ball.pos.x = 960) (hy : ball.pos.y = 600) :
    cellDistance ball 300 480 = 0 := by
  have e : ((480 : Int) : ℝ) * 2 - ball.pos.x = 0 := by
    rw [hx]
    norm_num
  have h := cellDistance_on_row ball 300 480 (by unfold inGrid; omega)
    (by rw [hy]; norm_num) (by rw [e]; exact isFloat_zero)
    (by rw [e, mul_zero]; exact isFloat_zero) (by rw [e, abs_zero]; exact isFloat_zero)
  rw [h, e, abs_zero]

/-! ## Falloff: cutoff, range and monotonicity -/

/-- At or beyond the cutoff the guard of `SmoothFalloff` returns zero. -/
theorem SmoothFalloff_of_ge (distance radius influence_radius : ℝ)
    (h : influence_radius ≤ distance) :
    SmoothFalloff distance radius influence_radius = 0 := by
  unfold SmoothFalloff
  rw [if_pos h]

/-- C1: at or beyond the influence radius the falloff is exactly zero, whatever the
radius and the influence radius are. -/
theorem SmoothFalloff_zero_beyond (distance radius influence_radius : ℝ)
    (h : distance ≥ influence_radius) :
    SmoothFalloff distance radius influence_radius = 0 := by
  unfold SmoothFalloff
  rw [if_pos h]

/-- Witness of C1 at distance 250, radius 40, influence radius 200. -/
theorem SmoothFalloff_zero_beyond_witness :
    (250 : ℝ) ≥ 200 ∧ SmoothFalloff 250 40 200 = 0 :=
  ⟨by norm_num, SmoothFalloff_zero_beyond 250 40 200 (by norm_num)⟩

/-- Below the cutoff the falloff is the product of the smoothstep shape, the radius
scale and the soft-edge term. -/
theorem SmoothFalloff_of_lt (distance radius influence_radius : ℝ)
    (h : distance < influence_radius) :
    SmoothFalloff distance radius influence_radius =
      (1 - distance / influence_radius) * (1 - distance / influence_radius) *
        (3 - 2 * (1 - distance / influence_radius)) * (radius / 40) *
        (1 - (distance / influence_radius) ^ SOFT_EDGE_FACTOR) := by
  unfold SmoothFalloff
  rw [if_neg (not_le.mpr h)]

/-- The soft-edge exponent is not negative. -/
theorem SOFT_EDGE_FACTOR_nonneg : (0 : ℝ) ≤ SOFT_EDGE_FACTOR := by
  unfold SOFT_EDGE_FACTOR
  norm_num

/-- The smoothstep shape is monotone on the unit interval. -/
theorem smoothstep_mono (a b : ℝ) (ha : 0 ≤ a) (hab : a ≤ b) (hb : b ≤ 1) :
    a * a * (3 - 2 * a) ≤ b * b * (3 - 2 * b) := by
  have h0 : 0 ≤ b - a := by linarith
  have h1 : 0 ≤ a * (3 - 2 * a - b) + b * (3 - 2 * b - a) := by
    have : 0 ≤ a * (3 - 2 * a - b) := mul_nonneg ha (by linarith)
    have : 0 ≤ b * (3 - 2 * b - a) := mul_nonneg (by linarith) (by linarith)
    linarith
  have h2 := mul_nonneg h0 h1
  nlinarith [h2]

/-- Three facts about the factors of the falloff for a distance in `[0, R)`: the
smoothstep shape lies in `[0, 1]` and so does the soft-edge term. -/
theorem falloff_factors (distance influence_radius : ℝ) (hd : 0 ≤ distance)
    (h : distance < influence_radius) :
    0 ≤ (1 - distance / influence_radius) * (1 - distance / influence_radius) *
        (3 - 2 * (1 - distance / influence_radius)) ∧
      (1 - distance / influence_radius) * (1 - distance / influence_radius) *
        (3 - 2 * (1 - distance / influence_radius)) ≤ 1 ∧
      0 ≤ 1 - (distance / influence_radius) ^ SOFT_EDGE_FACTOR ∧
      1 - (distance / influence_radius) ^ SOFT_EDGE_FACTOR ≤ 1 := by
  have hR : 0 < influence_radius := lt_of_le_of_lt hd h
  have hn0 : 0 ≤ distance / influence_radius := div_nonneg hd hR.le
  have hn1 : distance / influence_radius < 1 := (div_lt_one hR).mpr h
  have hx0 : 0 ≤ 1 - distance / influence_radius := by linarith
  have hx1 : 1 - distance / influence_radius ≤ 1 := by linarith
  have hs := smoothstep_mono 0 (1 - distance / influence_radius) le_rfl hx0 hx1
  have hs1 := smoothstep_mono (1 - distance / influence_radius) 1 hx0 hx1 le_rfl
  have hp0 : 0 ≤ (distance / influence_radius) ^ SOFT_EDGE_FACTOR :=
    Real.rpow_nonneg hn0 _
  have hp1 : (distance / influence_radius) ^ SOFT_EDGE_FACTOR ≤ 1 :=
    Real.rpow_le_one hn0 hn1.le SOFT_EDGE_FACTOR_nonneg
  refine ⟨by linarith, by linarith, by linarith, by linarith⟩

/-- For a radius that is not negative the falloff is not negative at any distance
`≥ 0`. -/
theorem SmoothFalloff_nonneg (distance radius influence_radius : ℝ) (hr : 0 ≤ radius)
    (hd : 0 ≤ distance) : 0 ≤ SmoothFalloff distance radius influence_radius := by
  rcases le_or_lt influence_radius distance with h | h
  · rw [SmoothFalloff_of_ge distance radius influence_radius h]
  · rw [SmoothFalloff_of_lt distance radius influence_radius h]
    obtain ⟨h1, _, h3, _⟩ := falloff_factors distance influence_radius hd h
    have hr40 : 0 ≤ radius / 40 := div_nonneg hr (by norm_num)
    exact mul_nonneg (mul_nonneg h1 hr40) h3

/-- For a radius that is not negative the falloff is at most `radius / 40` at any
distance `≥ 0`. -/
theorem SmoothFalloff_le (distance radius influence_radius : ℝ) (hr : 0 ≤ radius)
    (hd : 0 ≤ distance) : SmoothFalloff distance radius influence_radius ≤ radius / 40 := by
  have hr40 : 0 ≤ radius / 40 := div_nonneg hr (by norm_num)
  rcases le_or_lt influence_radius distance with h | h
  · rw [SmoothFalloff_of_ge distance radius influence_radius h]
    exact hr40
  · rw [SmoothFalloff_of_lt distance radius influence_radius h]
    obtain ⟨h1, h2, h3, h4⟩ := falloff_factors distance influence_radius hd h
    have hA : (1 - distance / influence_radius) * (1 - distance / influence_radius) *
        (3 - 2 * (1 - distance / influence_radius)) * (radius / 40) ≤ radius / 40 := by
      have := mul_le_mul_of_nonneg_right h2 hr40
      linarith
    have hA0 : 0 ≤ (1 - distance / influence_radius) * (1 - distance / influence_radius) *
        (3 - 2 * (1 - distance / influence_radius)) * (radius / 40) := mul_nonneg h1 hr40
    calc _ ≤ (1 - distance / influence_radius) * (1 - distance / influence_radius) *
          (3 - 2 * (1 - distance / influence_radius)) * (radius / 40) * 1 :=
          mul_le_mul_of_nonneg_left h4 hA0
      _ ≤ radius / 40 := by linarith

/-- Over the reals, for a fixed radius `≥ 0` and influence radius `> 0`, the formula of
the falloff never grows with the distance.  This is a fact about the formula in exact
arithmetic; the single-precision value (`SmoothFalloff32`) can rise by the rounding of
its steps. -/
theorem SmoothFalloff_antitone (radius influence_radius d1 d2 : ℝ) (hr : 0 ≤ radius)
    (hR : 0 < influence_radius) (h1 : 0 ≤ d1) (h12 : d1 ≤ d2) :
    SmoothFalloff d2 radius influence_radius ≤ SmoothFalloff d1 radius influence_radius := by
  rcases le_or_lt influence_radius d2 with h | h
  · rw [SmoothFalloff_of_ge d2 radius influence_radius h]
    exact SmoothFalloff_nonneg d1 radius influence_radius hr h1
  · have h1R : d1 < influence_radius := lt_of_le_of_lt h12 h
    have h2 : 0 ≤ d2 := le_trans h1 h12
    rw [SmoothFalloff_of_lt d2 radius influence_radius h,
      SmoothFalloff_of_lt d1 radius influence_radius h1R]
    obtain ⟨a1, _, a3, _⟩ := falloff_factors d1 influence_radius h1 h1R
    obtain ⟨b1, _, b3, _⟩ := falloff_factors d2 influence_radius h2 h
    have hr40 : 0 ≤ radius / 40 := div_nonneg hr (by norm_num)
    have hn : d1 / influence_radius ≤ d2 / influence_radius :=
      div_le_div_of_nonneg_right h12 hR.le
    have hn0 : 0 ≤ d1 / influence_radius := div_nonneg h1 hR.le
    have hn1 : d2 / influence_radius < 1 := (div_lt_one hR).mpr h
    have hs := smoothstep_mono (1 - d2 / influence_radius) (1 - d1 / influence_radius)
      (by linarith) (by linarith) (by linarith)
    have hp : (d1 / influence_radius) ^ SOFT_EDGE_FACTOR ≤
        (d2 / influence_radius) ^ SOFT_EDGE_FACTOR :=
      Real.rpow_le_rpow hn0 hn SOFT_EDGE_FACTOR_nonneg
    apply mul_le_mul _ (by linarith) b3 (mul_nonneg a1 hr40)
    exact mul_le_mul_of_nonneg_right hs hr40

/-- At distance zero the falloff is `radius / 40`. -/
theorem SmoothFalloff_at_zero (radius influence_radius : ℝ) (hR : 0 < influence_radius) :
    SmoothFalloff 0 radius influence_radius = radius / 40 := by
  rw [SmoothFalloff_of_lt 0 radius influence_radius hR]
  have hz : (0 : ℝ) ^ SOFT_EDGE_FACTOR = 0 := by
    apply Real.zero_rpow
    unfold SOFT_EDGE_FACTOR
    norm_num
  rw [zero_div, hz]
  ring

/-- C3: for radius `≥ 0`, influence radius `> 0` and distance `≥ 0` the falloff lies in
`[0, radius / 40]`, and at distance `0` it is exactly `radius / 40`: the only division
is by the influence radius, never by the distance. -/
theorem SmoothFalloff_range (distance radius influence_radius : ℝ) (hr : 0 ≤ radius)
    (hR : 0 < influence_radius) (hd : 0 ≤ distance) :
    0 ≤ SmoothFalloff distance radius influence_radius ∧
      SmoothFalloff distance radius influence_radius ≤ radius / 40 ∧
      SmoothFalloff 0 radius influence_radius = radius / 40 := by
  refine ⟨SmoothFalloff_nonneg distance radius influence_radius hr hd,
    SmoothFalloff_le distance radius influence_radius hr hd, ?_⟩
  exact SmoothFalloff_at_zero radius influence_radius hR

/-- Witness of C3: distance 100, radius 40, influence radius 200. -/
theorem SmoothFalloff_range_witness :
    0 ≤ SmoothFalloff 100 40 200 ∧ SmoothFalloff 100 40 200 ≤ (40 : ℝ) / 40 ∧
      SmoothFalloff 0 40 200 = (40 : ℝ) / 40 :=
  SmoothFalloff_range 100 40 200 (by norm_num) (by norm_num) (by norm_num)

/-! ## Falloff in single precision -/

/-- Three bytes under an opaque alpha byte pack without overlap. -/
theorem pack_eq (r g b : Nat) (hr : r < 256) (hg : g < 256) (hb : b < 256) :
    ((0xFF <<< 24) ||| (b <<< 16) ||| (g <<< 8) ||| r) =
      255 * 2 ^ 24 + b * 2 ^ 16 + g * 2 ^ 8 + r := by
  have h1 : 2 ^ 24 * 255 + b * 2 ^ 16 = 2 ^ 24 * 255 ||| b * 2 ^ 16 :=
    Nat.mul_add_lt_is_or (by omega) 255
  have h2 : 2 ^ 16 * (2 ^ 8 * 255 + b) + g * 2 ^ 8 =
      2 ^ 16 * (2 ^ 8 * 255 + b) ||| g * 2 ^ 8 :=
    Nat.mul_add_lt_is_or (by omega) _
  have h3 : 2 ^ 8 * (2 ^ 16 * 255 + 2 ^ 8 * b + g) + r =
      2 ^ 8 * (2 ^ 16 * 255 + 2 ^ 8 * b + g) ||| r :=
    Nat.mul_add_lt_is_or (by omega) _
  have e1 : (0xFF <<< 24 : Nat) = 2 ^ 24 * 255 := by simp [Nat.shiftLeft_eq]
  rw [e1, Nat.shiftLeft_eq b, Nat.shiftLeft_eq g, ← h1]
  have e2 : 2 ^ 24 * 255 + b * 2 ^ 16 = 2 ^ 16 * (2 ^ 8 * 255 + b) := by omega
  rw [e2, ← h2]
  have e3 : 2 ^ 16 * (2 ^ 8 * 255 + b) + g * 2 ^ 8 =
      2 ^ 8 * (2 ^ 16 * 255 + 2 ^ 8 * b + g) := by omega
  rw [e3, ← h3]
  omega

/-- A byte of a pixel is the quotient by a power of 256, modulo 256. -/
theorem byteOf_eq (pixel i : Nat) : byteOf pixel i = pixel / 2 ^ (8 * i) % 256 := by
  unfold byteOf
  have h : (0xFF : Nat) = 2 ^ 8 - 1 := by norm_num
  rw [h, Nat.and_pow_two_sub_one_eq_mod, Nat.shiftRight_eq_div_pow]

/-- A byte of a pixel is below 256. -/
theorem byteOf_lt (pixel i : Nat) : byteOf pixel i < 256 := by
  rw [byteOf_eq]
  exact Nat.mod_lt _ (by norm_num)

/-- The bytes that `blendR`, `blendG` and `blendB` decode are the bytes of the pixels. -/
theorem blend_bytes (existing new : Nat) (factor : ℝ) :
    blendR existing new factor = blendChannel (byteOf existing 0) (byteOf new 0) factor ∧
    blendG existing new factor = blendChannel (byteOf existing 1) (byteOf new 1) factor ∧
    blendB existing new factor = blendChannel (byteOf existing 2) (byteOf new 2) factor := by
  refine ⟨?_, ?_, ?_⟩ <;> simp [blendR, blendG, blendB, byteOf]

/-- The clamp of `BlendColors`: a computed channel never exceeds 255. -/
theorem blendChannel_le (c1 c2 : Nat) (factor : ℝ) : blendChannel c1 c2 factor ≤ 255 := by
  unfold blendChannel
  apply Nat.floor_le_of_le
  simp

/-- With factor zero a channel keeps the byte of the existing pixel. -/
theorem blendChannel_zero (c1 c2 : Nat) : blendChannel c1 c2 0 = c1 ⊓ 255 := by
  unfold blendChannel
  have h0 : (0 : ℝ) ≤ (c1 : ℝ) / 255 := by positivity
  simp only [mul_zero, add_zero]
  rw [Real.sqrt_mul_self h0]
  have h1 : (c1 : ℝ) / 255 * 255 = (c1 : ℝ) := by field_simp
  rw [h1]
  have h2 : min (c1 : ℝ) 255 = ((c1 ⊓ 255 : Nat) : ℝ) := by
    push_cast
    rfl
  rw [h2, Nat.floor_natCast]

/-- The packed result of `BlendColors` as a sum of its four bytes. -/
theorem BlendColors_eq (existing new : Nat) (factor : ℝ) :
    BlendColors existing new factor =
      255 * 2 ^ 24 + blendB existing new factor * 2 ^ 16 +
        blendG existing new factor * 2 ^ 8 + blendR existing new factor := by
  have hr : blendR existing new factor < 256 :=
    Nat.lt_succ_of_le (blendChannel_le _ _ _)
  have hg : blendG existing new factor < 256 :=
    Nat.lt_succ_of_le (blendChannel_le _ _ _)
  have hb : blendB existing new factor < 256 :=
    Nat.lt_succ_of_le (blendChannel_le _ _ _)
  unfold BlendColors
  simp only []
  rw [pack_eq _ _ _ hr hg hb]
  omega

/-- The four bytes of the result of `BlendColors`. -/
theorem BlendColors_bytes (existing new : Nat) (factor : ℝ) :
    byteOf (BlendColors existing new factor) 0 = blendR existing new factor ∧
    byteOf (BlendColors existing new factor) 1 = blendG existing new factor ∧
    byteOf (BlendColors existing new factor) 2 = blendB existing new factor ∧
    byteOf (BlendColors existing new factor) 3 = 255 := by
  have hr : blendR existing new factor < 256 :=
    Nat.lt_succ_of_le (blendChannel_le _ _ _)
  have hg : blendG existing new factor < 256 :=
    Nat.lt_succ_of_le (blendChannel_le _ _ _)
  have hb : blendB existing new factor < 256 :=
    Nat.lt_succ_of_le (blendChannel_le _ _ _)
  rw [BlendColors_eq]
  simp only [byteOf_eq]
  refine ⟨?_, ?_, ?_, ?_⟩ <;> omega

/-- C4: blending with factor 0 keeps the red, green and blue bytes of the existing
pixel, whatever the incoming pixel is, and sets the alpha byte to 255. -/
theorem BlendColors_zero_factor (existing incoming : Nat) :
    byteOf (BlendColors existing incoming 0) 0 = byteOf existing 0 ∧
    byteOf (BlendColors existing incoming 0) 1 = byteOf existing 1 ∧
    byteOf (BlendColors existing incoming 0) 2 = byteOf existing 2 ∧
    byteOf (BlendColors existing incoming 0) 3 = 255 := by
  obtain ⟨h0, h1, h2, h3⟩ := BlendColors_bytes existing incoming 0
  obtain ⟨e0, e1, e2⟩ := blend_bytes existing incoming 0
  have k0 := byteOf_lt existing 0
  have k1 := byteOf_lt existing 1
  have k2 := byteOf_lt existing 2
  rw [h0, h1, h2, h3, e0, e1, e2, blendChannel_zero, blendChannel_zero, blendChannel_zero]
  refine ⟨?_, ?_, ?_, rfl⟩
  · exact min_eq_left (by omega)
  · exact min_eq_left (by omega)
  · exact min_eq_left (by omega)

/-- C5: for every factor `≥ 0` the values `r`, `g`, `b` that `BlendColors` computes lie
in `[0, 255]`, and the packed result has exactly them as bytes 0, 1, 2 and 255 as
byte 3: no channel wraps or spills into a neighbouring byte. -/
theorem BlendColors_clamped (existing incoming : Nat) (factor : ℝ) (_hf : 0 ≤ factor) :
    blendR existing incoming factor ≤ 255 ∧
    blendG existing incoming factor ≤ 255 ∧
    blendB existing incoming factor ≤ 255 ∧
    byteOf (BlendColors existing incoming factor) 0 = blendR existing incoming factor ∧
    byteOf (BlendColors existing incoming factor) 1 = blendG existing incoming factor ∧
    byteOf (BlendColors existing incoming factor) 2 = blendB existing incoming factor ∧
    byteOf (BlendColors existing incoming factor) 3 = 255 :=
  ⟨blendChannel_le _ _ _, blendChannel_le _ _ _, blendChannel_le _ _ _,
    BlendColors_bytes existing incoming factor⟩

/-- Witness of C5: white blended into white with factor 1000000. -/
theorem BlendColors_clamped_witness :
    blendR 0xFFFFFFFF 0xFFFFFFFF 1000000 ≤ 255 ∧
    blendG 0xFFFFFFFF 0xFFFFFFFF 1000000 ≤ 255 ∧
    blendB 0xFFFFFFFF 0xFFFFFFFF 1000000 ≤ 255 ∧
    byteOf (BlendColors 0xFFFFFFFF 0xFFFFFFFF 1000000) 0 =
      blendR 0xFFFFFFFF 0xFFFFFFFF 1000000 ∧
    byteOf (BlendColors 0xFFFFFFFF 0xFFFFFFFF 1000000) 1 =
      blendG 0xFFFFFFFF 0xFFFFFFFF 1000000 ∧
    byteOf (BlendColors 0xFFFFFFFF 0xFFFFFFFF 1000000) 2 =
      blendB 0xFFFFFFFF 0xFFFFFFFF 1000000 ∧
    byteOf (BlendColors 0xFFFFFFFF 0xFFFFFFFF 1000000) 3 = 255 :=
  BlendColors_clamped 0xFFFFFFFF 0xFFFFFFFF 1000000 (by norm_num)

/-! ## Physics: reflection at the left edge -/

/-- C6: a ball with `pos.x = -5` and `vel.x = -v`, `v > 0`, has after one physics step
of any duration `dt ≥ 0` the position `pos.x = 0` and the velocity `vel.x = v`. -/
theorem stepBall_reflects_left (ball : Ball) (v dt : ℝ) (hv : 0 < v) (hdt : 0 ≤ dt)
    (hx : ball.pos.x = -5) (hvx : ball.vel.x = -v) :
    (stepBall ball dt).pos.x = 0 ∧ (stepBall ball dt).vel.x = v := by
  have hm : 0 ≤ v * BASE_SPEED * dt := by
    unfold BASE_SPEED
    positivity
  have h1 : ball.pos.x + ball.vel.x * BASE_SPEED * dt ≤ 0 := by
    rw [hx, hvx]
    nlinarith
  have h2 : ¬ ((0 : ℝ) ≥ (WIDTH : ℝ)) := by
    unfold WIDTH
    norm_num
  simp only [stepBall, UpdateBallBounds, Vector2Add, if_pos h1, if_neg h2]
  constructor
  · split_ifs <;> rfl
  · split_ifs <;> simp [hvx]

/-- Witness of C6: speed 1, a step of one hundredth of a second. -/
theorem stepBall_reflects_left_witness :
    (stepBall ⟨⟨-5, 600⟩, ⟨-1, 0⟩, 20, red, ⟨0, 0, 0, 0⟩, 1⟩ (1 / 100)).pos.x = 0 ∧
    (stepBall ⟨⟨-5, 600⟩, ⟨-1, 0⟩, 20, red, ⟨0, 0, 0, 0⟩, 1⟩ (1 / 100)).vel.x = 1 :=
  stepBall_reflects_left ⟨⟨-5, 600⟩, ⟨-1, 0⟩, 20, red, ⟨0, 0, 0, 0⟩, 1⟩ 1 (1 / 100)
    (by norm_num) (by norm_num) rfl rfl

/-! ## Compositor: the single-source scenario -/

/-- A channel blended into a black byte: `⌊min (c2 * sqrt factor) 255⌋`. -/
theorem blendChannel_black (c2 : Nat) (factor : ℝ) :
    blendChannel 0 c2 factor = ⌊min ((c2 : ℝ) * Real.sqrt factor) 255⌋₊ := by
  unfold blendChannel
  have h0 : (0 : ℝ) ≤ (c2 : ℝ) / 255 := by positivity
  have e : ((0 : Nat) : ℝ) / 255 * (((0 : Nat) : ℝ) / 255) +
      (c2 : ℝ) / 255 * ((c2 : ℝ) / 255) * factor =
      ((c2 : ℝ) / 255 * ((c2 : ℝ) / 255)) * factor := by
    simp
  simp only [e]
  rw [Real.sqrt_mul (mul_self_nonneg _), Real.sqrt_mul_self h0]
  have e2 : (c2 : ℝ) / 255 * Real.sqrt factor * 255 = (c2 : ℝ) * Real.sqrt factor := by
    field_simp
  rw [e2]

/-- Refreshing the bounds changes no other field of the ball. -/
theorem UpdateBallBounds_fields (ball : Ball) :
    (UpdateBallBounds ball).pos = ball.pos ∧ (UpdateBallBounds ball).vel = ball.vel ∧
    (UpdateBallBounds ball).radius = ball.radius ∧
    (UpdateBallBounds ball).color = ball.color ∧
    (UpdateBallBounds ball).intensity = ball.intensity :=
  ⟨rfl, rfl, rfl, rfl, rfl⟩

/-- The packed colour of `red` and of `green`. -/
theorem ColorToUint32_red_green :
    ColorToUint32 red = 0xFF0000FF ∧ ColorToUint32 green = 0xFF00FF00 := by
  constructor <;> decide

/-- In the single-source scenario the centre cell passes the containment test, is at
distance 0 and gets factor 1. -/
theorem singleSource_centre (vel : Vector2) (stale : SDL_Rect) :
    inBounds (singleSource vel stale).bounds 300 480 ∧
    cellDistance (singleSource vel stale) 300 480 = 0 ∧
    cellFactor (singleSource vel stale) 300 480 = 1 := by
  have hb : inBounds (singleSource vel stale).bounds 300 480 := by
    unfold singleSource
    apply wide_box_contains <;> norm_num
  have hd : cellDistance (singleSource vel stale) 300 480 = 0 :=
    centre_distance _ rfl rfl
  refine ⟨hb, hd, ?_⟩
  unfold cellFactor
  rw [hd]
  have hrad : (singleSource vel stale).radius = 40 := rfl
  have hint : (singleSource vel stale).intensity = 1 := rfl
  rw [hrad, hint, SmoothFalloff_at_zero 40 INFLUENCE_RADIUS (by unfold INFLUENCE_RADIUS; norm_num)]
  norm_num

/-- C9: in the single-source scenario the pixel accumulated for the centre cell
`(col 480, row 300)` before the ambient-glow step has a red byte above 0 (it is 255)
and green and blue bytes equal to 0. -/
theorem singleSource_centre_accumulated (vel : Vector2) (stale : SDL_Rect) :
    byteOf (accumulate [singleSource vel stale] 300 480).1 0 > 0 ∧
    byteOf (accumulate [singleSource vel stale] 300 480).1 1 = 0 ∧
    byteOf (accumulate [singleSource vel stale] 300 480).1 2 = 0 ∧
    byteOf (accumulate [singleSource vel stale] 300 480).1 0 = 255 := by
  obtain ⟨hb, hd, hf⟩ := singleSource_centre vel stale
  have hcol : (singleSource vel stale).color = red := rfl
  have hacc : (accumulate [singleSource vel stale] 300 480).1 =
      BlendColors 0 0xFF0000FF 1 := by
    unfold accumulate
    rw [List.foldl_cons, List.foldl_nil]
    unfold cellStep
    rw [if_pos hb, if_pos (by rw [hd]; unfold INFLUENCE_RADIUS; norm_num), hf, hcol,
      ColorToUint32_red_green.1]
  obtain ⟨h0, h1, h2, _⟩ := BlendColors_bytes 0 0xFF0000FF 1
  obtain ⟨e0, e1, e2⟩ := blend_bytes 0 0xFF0000FF 1
  have b0 : byteOf 0 0 = 0 := by decide
  have b1 : byteOf 0 1 = 0 := by decide
  have b2 : byteOf 0 2 = 0 := by decide
  have n0 : byteOf 0xFF0000FF 0 = 255 := by decide
  have n1 : byteOf 0xFF0000FF 1 = 0 := by decide
  have n2 : byteOf 0xFF0000FF 2 = 0 := by decide
  have r255 : blendChannel 0 255 1 = 255 := by
    rw [blendChannel_black 255 1]
    simp
  have r0 : blendChannel 0 0 1 = 0 := by
    rw [blendChannel_black 0 1]
    simp
  rw [hacc, h0, h1, h2, e0, e1, e2, b0, b1, b2, n0, n1, n2, r255, r0]
  simp

/-! ## Compositor: two balls on one cell -/

/-- A computed channel grows with the existing byte and with the factor. -/
theorem blendChannel_mono (c1 d1 c2 : Nat) (f g : ℝ) (hc : c1 ≤ d1) (hfg : f ≤ g) :
    blendChannel c1 c2 f ≤ blendChannel d1 c2 g := by
  unfold blendChannel
  apply Nat.floor_mono
  apply min_le_min _ le_rfl
  apply mul_le_mul_of_nonneg_right _ (by norm_num)
  apply Real.sqrt_le_sqrt
  have h1 : (c1 : ℝ) / 255 ≤ (d1 : ℝ) / 255 :=
    div_le_div_of_nonneg_right (by exact_mod_cast hc) (by norm_num)
  have h0 : (0 : ℝ) ≤ (c1 : ℝ) / 255 := by positivity
  have h2 : (c1 : ℝ) / 255 * ((c1 : ℝ) / 255) ≤ (d1 : ℝ) / 255 * ((d1 : ℝ) / 255) :=
    mul_le_mul h1 h1 h0 (le_trans h0 h1)
  have h3 : (c2 : ℝ) / 255 * ((c2 : ℝ) / 255) * f ≤ (c2 : ℝ) / 255 * ((c2 : ℝ) / 255) * g :=
    mul_le_mul_of_nonneg_left hfg (mul_self_nonneg _)
  exact add_le_add h2 h3

/-- A factor `≥ 0` never lowers a byte. -/
theorem blendChannel_ge (c1 c2 : Nat) (f : ℝ) (hc : c1 ≤ 255) (hf : 0 ≤ f) :
    c1 ≤ blendChannel c1 c2 f := by
  have h := blendChannel_mono c1 c1 c2 0 f le_rfl hf
  rw [blendChannel_zero] at h
  rwa [min_eq_left hc] at h

/-- Each byte of the result of `BlendColors`: the colour bytes are the computed
channels of the same bytes of the operands, the alpha byte is 255. -/
theorem BlendColors_byte (p n : Nat) (f : ℝ) (i : Nat) (hi : i < 4) :
    byteOf (BlendColors p n f) i =
      if i = 3 then 255 else blendChannel (byteOf p i) (byteOf n i) f := by
  obtain ⟨h0, h1, h2, h3⟩ := BlendColors_bytes p n f
  obtain ⟨e0, e1, e2⟩ := blend_bytes p n f
  have hcases : i = 0 ∨ i = 1 ∨ i = 2 ∨ i = 3 := by omega
  rcases hcases with rfl | rfl | rfl | rfl
  · rw [h0, e0]; simp
  · rw [h1, e1]; simp
  · rw [h2, e2]; simp
  · rw [h3]; simp

/-- With a factor `≥ 0`, `BlendColors` lowers no byte of the existing pixel. -/
theorem BlendColors_ge (p n : Nat) (f : ℝ) (hf : 0 ≤ f) : pixelLe p (BlendColors p n f) := by
  intro i hi
  rw [BlendColors_byte p n f i hi]
  have hlt := byteOf_lt p i
  split_ifs
  · omega
  · exact blendChannel_ge _ _ f (by omega) hf

/-- The factor of a ball with radius `≥ 0` and intensity `≥ 0` is not negative. -/
theorem cellFactor_nonneg (ball : Ball) (row col : Int) (hr : 0 ≤ ball.radius)
    (hi : 0 ≤ ball.intensity) : 0 ≤ cellFactor ball row col := by
  unfold cellFactor
  apply mul_nonneg _ hi
  apply SmoothFalloff_nonneg _ _ _ hr
  unfold cellDistance
  exact rnd_nonneg _ (Real.sqrt_nonneg _)

/-- The ambient-glow step lowers no byte. -/
theorem ambientGlow_ge (a : Nat × ℝ) : pixelLe a.1 (ambientGlow a) := by
  unfold ambientGlow
  split_ifs with h
  · exact BlendColors_ge _ _ _ (by linarith)
  · exact fun i _ => le_rfl

/-- Below the cutoff the falloff is at most the smoothstep shape times the radius
scale: the soft-edge term is at most 1. -/
theorem SmoothFalloff_le_shape (distance radius influence_radius : ℝ) (hr : 0 ≤ radius)
    (hd : 0 ≤ distance) (h : distance < influence_radius) :
    SmoothFalloff distance radius influence_radius ≤
      (1 - distance / influence_radius) * (1 - distance / influence_radius) *
        (3 - 2 * (1 - distance / influence_radius)) * (radius / 40) := by
  rw [SmoothFalloff_of_lt distance radius influence_radius h]
  obtain ⟨h1, _, _, h4⟩ := falloff_factors distance influence_radius hd h
  have hr40 : 0 ≤ radius / 40 := div_nonneg hr (by norm_num)
  have hA := mul_nonneg h1 hr40
  calc _ ≤ (1 - distance / influence_radius) * (1 - distance / influence_radius) *
        (3 - 2 * (1 - distance / influence_radius)) * (radius / 40) * 1 :=
        mul_le_mul_of_nonneg_left h4 hA
    _ = _ := mul_one _

/-- A colour byte blended into a black byte with a factor below `1 / 65025` stays 0:
the truncation to 8 bits drops it. -/
theorem blendChannel_black_zero (c : Nat) (f : ℝ) (hc : c ≤ 255) (hf : f * 65025 < 1) :
    blendChannel 0 c f = 0 := by
  rw [blendChannel_black]
  apply Nat.floor_eq_zero.mpr
  apply min_lt_of_left_lt
  have hs : Real.sqrt f < 1 / 255 := by
    rw [Real.sqrt_lt' (by norm_num)]
    norm_num
    linarith
  have hc1 : (c : ℝ) ≤ 255 := by exact_mod_cast hc
  have hs0 : 0 ≤ Real.sqrt f := Real.sqrt_nonneg f
  calc (c : ℝ) * Real.sqrt f ≤ 255 * Real.sqrt f := mul_le_mul_of_nonneg_right hc1 hs0
    _ < 255 * (1 / 255) := by linarith
    _ = 1 := by norm_num

/-- A pixel with black colour bytes stays opaque black under a blend with a factor
below `1 / 65025`. -/
theorem BlendColors_dark (p n : Nat) (f : ℝ) (h0 : byteOf p 0 = 0) (h1 : byteOf p 1 = 0)
    (h2 : byteOf p 2 = 0) (hf : f * 65025 < 1) : BlendColors p n f = 0xFF000000 := by
  obtain ⟨e0, e1, e2⟩ := blend_bytes p n f
  have k0 := byteOf_lt n 0
  have k1 := byteOf_lt n 1
  have k2 := byteOf_lt n 2
  rw [BlendColors_eq, e0, e1, e2, h0, h1, h2,
    blendChannel_black_zero _ f (by omega) hf, blendChannel_black_zero _ f (by omega) hf,
    blendChannel_black_zero _ f (by omega) hf]
  norm_num

/-- The ambient-glow step on an opaque black pixel with a small total influence. -/
theorem ambientGlow_dark (t : ℝ) (ht : t * 100000 ≤ 1) :
    ambientGlow (0xFF000000, t) = 0xFF000000 := by
  unfold ambientGlow
  split_ifs
  · have b0 : byteOf 0xFF000000 0 = 0 := by decide
    have b1 : byteOf 0xFF000000 1 = 0 := by decide
    have b2 : byteOf 0xFF000000 2 = 0 := by decide
    exact BlendColors_dark _ _ _ b0 b1 b2 (by linarith)
  · rfl

/-- A ball whose computed distance is `≥ INFLUENCE_RADIUS` leaves the pair
`(pixel, totalInfluence)` as it was, whatever its box says. -/
theorem cellStep_far (row col : Int) (acc : Nat × ℝ) (ball : Ball)
    (h : INFLUENCE_RADIUS ≤ cellDistance ball row col) : cellStep row col acc ball = acc := by
  unfold cellStep
  rw [if_neg (not_lt.mpr h)]
  simp

/-- A list of balls all out of reach leaves the pair as it was. -/
theorem foldl_cellStep_far (row col : Int) (balls : List Ball) (acc : Nat × ℝ)
    (h : ∀ b ∈ balls, INFLUENCE_RADIUS ≤ cellDistance b row col) :
    balls.foldl (cellStep row col) acc = acc := by
  induction balls generalizing acc with
  | nil => rfl
  | cons b rest ih =>
    rw [List.foldl_cons, cellStep_far row col acc b (h b (List.mem_cons_self b rest))]
    exact ih acc (fun c hc => h c (List.mem_cons_of_mem b hc))

/-- A grid cell that is 200 or more away from a ball along one axis, in exact
arithmetic, has a computed distance of at least `INFLUENCE_RADIUS`. -/
theorem cellDistance_far (ball : Ball) (row col : Int) (hg : inGrid row col)
    (h : 200 ≤ |(col : ℝ) * 2 - ball.pos.x| ∨ 200 ≤ |(row : ℝ) * 2 - ball.pos.y|) :
    INFLUENCE_RADIUS ≤ cellDistance ball row col := by
  by_contra hcon
  push_neg at hcon
  obtain ⟨h1, h2⟩ := cellDistance_axes ball row col hg hcon
  rcases h with h | h <;> linarith

/-- Evaluation of the rounded square root from bounds on the radicand. -/
theorem rnd_sqrt_eq (S : ℝ) (m k : Int) (hk : -149 ≤ k) (hm : 1 ≤ m)
    (h1 : ((2 : ℝ) ^ (k + 23)) ^ 2 ≤ S) (h2 : S < ((2 : ℝ) ^ (k + 24)) ^ 2)
    (h3 : (((m : ℝ) - 1 / 2) * (2 : ℝ) ^ k) ^ 2 < S)
    (h4 : S < (((m : ℝ) + 1 / 2) * (2 : ℝ) ^ k) ^ 2) :
    rnd (Real.sqrt S) = (m : ℝ) * (2 : ℝ) ^ k := by
  have hp : (0 : ℝ) < (2 : ℝ) ^ k := zpow_pos (by norm_num) _
  have hm1 : (1 : ℝ) ≤ (m : ℝ) := by exact_mod_cast hm
  apply rnd_eq_pos _ m k hk
  · exact Real.le_sqrt_of_sq_le h1
  · rw [Real.sqrt_lt' (zpow_pos (by norm_num) _)]
    exact h2
  · rw [lt_div_iff₀ hp, Real.lt_sqrt (mul_nonneg (by linarith) hp.le)]
    exact h3
  · rw [div_lt_iff₀ hp, Real.sqrt_lt' (mul_pos (by linarith) hp)]
    exact h4

/-- The distance from `rimBall` to the cell `(col 106, row 335)`: the machine computes
`13107199 / 65536`, the float just below 200, while the exact distance is at least
200. -/
theorem rimBall_distance :
    cellDistance rimBall 335 106 = 13107199 / 65536 ∧
    INFLUENCE_RADIUS ≤ exactDistance rimBall 335 106 := by
  constructor
  · have e1 : rnd (((106 : Int) * ((GRID_SCALE : Nat) : Int) : Int) : ℝ) = 212 := by
      have := rnd_natCast 212 (by norm_num)
      unfold GRID_SCALE
      norm_num
      exact_mod_cast this
    have e2 : rnd (((335 : Int) * ((GRID_SCALE : Nat) : Int) : Int) : ℝ) = 670 := by
      have := rnd_natCast 670 (by norm_num)
      unfold GRID_SCALE
      norm_num
      exact_mod_cast this
    have e3 : rnd ((212 : ℝ) - 13391001 / 1048576) =
        (13056694 : Int) * (2 : ℝ) ^ (-16 : Int) :=
      rnd_eq_pos _ 13056694 (-16) (by norm_num) (by norm_num) (by norm_num) (by norm_num)
        (by norm_num)
    have e4 : rnd ((670 : ℝ) - 11264663 / 16384) =
        (-9196256 : Int) * (2 : ℝ) ^ (-19 : Int) :=
      rnd_eq_neg _ (-9196256) (-19) (by norm_num) (by norm_num) (by norm_num) (by norm_num)
        (by norm_num)
    have e5 : rnd (((13056694 : Int) : ℝ) * (2 : ℝ) ^ (-16 : Int) *
        (((13056694 : Int) : ℝ) * (2 : ℝ) ^ (-16 : Int))) =
        (10161236 : Int) * (2 : ℝ) ^ (-8 : Int) :=
      rnd_eq_pos _ 10161236 (-8) (by norm_num) (by norm_num) (by norm_num) (by norm_num)
        (by norm_num)
    have e6 : rnd (((-9196256 : Int) : ℝ) * (2 : ℝ) ^ (-19 : Int) *
        (((-9196256 : Int) : ℝ) * (2 : ℝ) ^ (-19 : Int))) =
        (10081664 : Int) * (2 : ℝ) ^ (-15 : Int) :=
      rnd_eq_pos _ 10081664 (-15) (by norm_num) (by norm_num) (by norm_num) (by norm_num)
        (by norm_num)
    have e7 : rnd (((10161236 : Int) : ℝ) * (2 : ℝ) ^ (-8 : Int) +
        ((10081664 : Int) : ℝ) * (2 : ℝ) ^ (-15 : Int)) =
        (10239999 : Int) * (2 : ℝ) ^ (-8 : Int) :=
      rnd_eq_pos _ 10239999 (-8) (by norm_num) (by norm_num) (by norm_num) (by norm_num)
        (by norm_num)
    have e8 : rnd (Real.sqrt (((10239999 : Int) : ℝ) * (2 : ℝ) ^ (-8 : Int))) =
        (13107199 : Int) * (2 : ℝ) ^ (-16 : Int) :=
      rnd_sqrt_eq _ 13107199 (-16) (by norm_num) (by norm_num) (by norm_num) (by norm_num)
        (by norm_num) (by norm_num)
    simp only [cellDistance, rimBall, UpdateBallBounds]
    rw [e1, e2, e3, e4, e5, e6, e7, e8]
    norm_num
  · simp only [exactDistance, rimBall, UpdateBallBounds]
    unfold INFLUENCE_RADIUS
    apply Real.le_sqrt_of_sq_le
    norm_num

/-- The claim C8 as stated fails at the rim of the influence disc: the cell
`(col 106, row 335)` of the grid is at an exact distance of at least
`INFLUENCE_RADIUS` from `rimBall`, the only ball, but the distance the compositor
computes in single precision is `13107199 / 65536`, below 200; the cell is inside the
box, the ball is blended with a factor too small to lift a byte, and the pixel stored
is `0xFF000000`, with alpha 255, not `0x00000000`. -/
theorem rim_cell_not_transparent :
    inGrid 335 106 ∧
    (∀ b ∈ [rimBall], INFLUENCE_RADIUS ≤ exactDistance b 335 106) ∧
    cellDistance rimBall 335 106 = 13107199 / 65536 ∧
    cellDistance rimBall 335 106 < INFLUENCE_RADIUS ∧
    inBounds rimBall.bounds 335 106 ∧
    cellPixel [rimBall] 335 106 = 0xFF000000 ∧
    cellPixel [rimBall] 335 106 ≠ 0 ∧
    byteOf (cellPixel [rimBall] 335 106) 3 = 255 := by
  obtain ⟨hd, he⟩ := rimBall_distance
  have hlt : cellDistance rimBall 335 106 < INFLUENCE_RADIUS := by
    rw [hd]
    unfold INFLUENCE_RADIUS
    norm_num
  have hb : inBounds rimBall.bounds 335 106 := by
    unfold rimBall
    apply wide_box_contains <;> norm_num
  have hf0 : 0 ≤ cellFactor rimBall 335 106 :=
    cellFactor_nonneg rimBall 335 106 (show (0 : ℝ) ≤ 20 by norm_num)
      (show (0 : ℝ) ≤ 1 by norm_num)
  have hf1 : cellFactor rimBall 335 106 * 200000 ≤ 1 := by
    have hrad : rimBall.radius = 20 := rfl
    have hint : rimBall.intensity = 1 := rfl
    unfold cellFactor
    rw [hd, hrad, hint]
    have h := SmoothFalloff_le_shape (13107199 / 65536) 20 INFLUENCE_RADIUS (by norm_num)
      (by norm_num) (by unfold INFLUENCE_RADIUS; norm_num)
    unfold INFLUENCE_RADIUS at h
    unfold INFLUENCE_RADIUS
    norm_num at h
    linarith
  have hp : cellPixel [rimBall] 335 106 = 0xFF000000 := by
    unfold cellPixel accumulate
    simp only [List.foldl_cons, List.foldl_nil]
    unfold cellStep
    rw [if_pos hb, if_pos hlt]
    simp only []
    rw [BlendColors_dark 0 _ _ (by decide) (by decide) (by decide) (by linarith)]
    exact ambientGlow_dark _ (by linarith)
  refine ⟨by unfold inGrid; omega, ?_, hd, hlt, hb, hp, ?_, ?_⟩
  · intro b hb1
    rw [List.mem_singleton] at hb1
    subst hb1
    exact he
  · rw [hp]
    decide
  · rw [hp]
    decide

/-- C8, amended: for any list of balls, with any bounding boxes, a cell whose distance
to every ball, as the compositor computes it in single precision (`cellDistance`), is
at least `INFLUENCE_RADIUS` is stored as `0x00000000`: no source is blended and the
ambient glow is not applied.  The exact distance is not what decides: `rimBall`. -/
theorem cellPixel_out_of_reach (balls : List Ball) (row col : Int)
    (h : ∀ b ∈ balls, INFLUENCE_RADIUS ≤ cellDistance b row col) :
    cellPixel balls row col = 0 ∧ accumulate balls row col = (0, 0) := by
  have hacc : accumulate balls row col = (0, 0) := by
    unfold accumulate
    exact foldl_cellStep_far row col balls (0, 0) h
  refine ⟨?_, hacc⟩
  unfold cellPixel ambientGlow
  rw [hacc]
  simp

/-- Witness of C8, amended: the ball `smallBall` after `UpdateBallBounds` and the cell
`(col 0, row 0)`, 960 pixels away along x. -/
theorem cellPixel_out_of_reach_witness :
    cellPixel [UpdateBallBounds smallBall] 0 0 = 0 ∧
      accumulate [UpdateBallBounds smallBall] 0 0 = (0, 0) :=
  cellPixel_out_of_reach [UpdateBallBounds smallBall] 0 0 (by
    intro b hb
    rw [List.mem_singleton] at hb
    subst hb
    apply cellDistance_far _ 0 0 (by unfold inGrid; omega)
    left
    show (200 : ℝ) ≤ |((0 : Int) : ℝ) * 2 - 960|
    norm_num [abs_of_neg])

/-! ## Initialisation: normalising the velocity -/

/-- The conversion `(float)RAND_MAX` for `RAND_MAX = 2147483647`: the nearest float is
`2 ^ 31`. -/
theorem rnd_RAND_MAX : rnd ((2147483647 : Nat) : ℝ) = 2147483648 := by
  have h := rnd_eq_pos ((2147483647 : Nat) : ℝ) 16777216 7 (by norm_num) (by norm_num)
    (by norm_num) (by norm_num) (by norm_num)
  rw [h]
  norm_num

/-- The raw velocity component of the draw `2 ^ 30` under `RAND_MAX = 2147483647` is
exactly 0: `2 ^ 30 / 2 ^ 31 * 2 - 1`. -/
theorem rawVelocity_half : rawVelocity 2147483647 1073741824 = 0 := by
  have e1 : rnd ((1073741824 : Nat) : ℝ) = 1073741824 :=
    rnd_of_isFloat _ ⟨1, 30, by norm_num, by norm_num, by norm_num⟩
  have e2 : (1073741824 : ℝ) / 2147483648 = 1 / 2 := by norm_num
  have e3 : rnd (1 / 2 : ℝ) = 1 / 2 :=
    rnd_of_isFloat _ ⟨1, -1, by norm_num, by norm_num, by norm_num⟩
  have e4 : (1 / 2 : ℝ) * 2 = ((1 : Nat) : ℝ) := by norm_num
  have e5 : ((1 : Nat) : ℝ) - 1 = 0 := by norm_num
  unfold rawVelocity
  rw [e1, rnd_RAND_MAX, e2, e3, e4, rnd_natCast 1 (by norm_num), e5, rnd_zero]

/-- The normalisation of the zero vector: the length is 0 and both divisions are
`0 / 0`, NaN. -/
theorem normalizeVelocity_zero_nan :
    (normalizeVelocity 0 0).x = none ∧ (normalizeVelocity 0 0).y = none := by
  have e : rnd (Real.sqrt (rnd (rnd ((0 : ℝ) * 0) + rnd ((0 : ℝ) * 0)))) = 0 := by
    rw [mul_zero, rnd_zero, add_zero, rnd_zero, Real.sqrt_zero, rnd_zero]
  simp only [normalizeVelocity, fdivN, e, if_true]
  exact ⟨trivial, trivial⟩

/-- C11, the failing input: under `RAND_MAX = 2147483647` (glibc) with both velocity
draws equal to `2 ^ 30`, the raw velocity of `Init` is the zero vector `(0, 0)`, the
length is 0, no default direction is substituted, and the velocity that `Init` stores
is `(NaN, NaN)`: it has no length at all, let alone length 1. -/
theorem Init_zero_velocity_nan :
    rawVelocity 2147483647 1073741824 = 0 ∧
    nanBall.vel.x = none ∧ nanBall.vel.y = none ∧
    (∀ vx vy : ℝ, ¬ (nanBall.vel.x = some vx ∧ nanBall.vel.y = some vy ∧
      vx * vx + vy * vy = 1)) := by
  have hv : nanBall.vel = normalizeVelocity 0 0 := by
    show normalizeVelocity (rawVelocity 2147483647 1073741824)
      (rawVelocity 2147483647 1073741824) = normalizeVelocity 0 0
    rw [rawVelocity_half]
  obtain ⟨hx, hy⟩ := normalizeVelocity_zero_nan
  refine ⟨rawVelocity_half, ?_, ?_, ?_⟩
  · rw [hv]
    exact hx
  · rw [hv]
    exact hy
  · intro vx vy h
    rw [hv, hx] at h
    exact Option.noConfusion h.1

/-! ## Bounding boxes inside the grid -/

/-- The half-width and the box of `hugeBall`, radius ten million at `(960, 600)`: the
half-width is 1200000000 cells, its double leaves the 32 bits of an `int` and wraps to
a negative width and height. -/
theorem hugeBall_box :
    halfWidth hugeBall.radius = 1200000000 ∧
    (UpdateBallBounds hugeBall).bounds.x = 0 ∧ (UpdateBallBounds hugeBall).bounds.y = 0 ∧
    (UpdateBallBounds hugeBall).bounds.w = -1894967296 ∧
    (UpdateBallBounds hugeBall).bounds.h = -1894967296 := by
  have hw : halfWidth hugeBall.radius = 1200000000 := by
    have e1 : hugeBall.radius * INFLUENCE_RADIUS = 2000000000 := by
      simp only [hugeBall, INFLUENCE_RADIUS]
      norm_num
    have e2 : rnd (2000000000 : ℝ) = 2000000000 :=
      rnd_of_isFloat _ ⟨15625000, 7, by norm_num, by norm_num, by norm_num⟩
    have e3 : (2000000000 : ℝ) / ((GRID_SCALE : Nat) : ℝ) = 1000000000 := by
      unfold GRID_SCALE
      norm_num
    have e4 : rnd (1000000000 : ℝ) = 1000000000 :=
      rnd_of_isFloat _ ⟨15625000, 6, by norm_num, by norm_num, by norm_num⟩
    have e5 : rnd ((1000000000 : ℝ) * (10066330 / 8388608)) =
        (9375000 : Int) * (2 : ℝ) ^ (7 : Int) :=
      rnd_eq_pos _ 9375000 7 (by norm_num) (by norm_num) (by norm_num) (by norm_num)
        (by norm_num)
    unfold halfWidth
    rw [e1, e2, e3, e4, rnd_12, e5, toInt_of_nonneg _ (by norm_num)]
    rw [Int.floor_eq_iff]
    norm_num
  have hx : cellOf hugeBall.pos.x = 480 := smallBall_trunc.2.1
  have hy : cellOf hugeBall.pos.y = 300 := smallBall_trunc.2.2
  obtain ⟨bx, by1, bw, bh⟩ := UpdateBallBounds_bounds hugeBall
  rw [hw, hx] at bx
  rw [hw, hy] at by1
  rw [hw] at bw bh
  have bx1 : (UpdateBallBounds hugeBall).bounds.x = 0 := by rw [bx]; decide
  have by2 : (UpdateBallBounds hugeBall).bounds.y = 0 := by rw [by1]; decide
  have bw1 : (UpdateBallBounds hugeBall).bounds.w = -1894967296 := by rw [bw, bx1]; decide
  have bh1 : (UpdateBallBounds hugeBall).bounds.h = -1894967296 := by rw [bh, by2]; decide
  exact ⟨hw, bx1, by2, bw1, bh1⟩

/-- The claim C12 as stated fails for a large radius: `hugeBall` has its position
inside `[0, WIDTH] x [0, HEIGHT]` and radius `10000000 ≥ 0`, the half-width
`1200000000` fits an `int` but `radius * 2` wraps, and the box after
`UpdateBallBounds` has `w = h = -1894967296 < 0`. -/
theorem huge_radius_box_negative :
    (0 ≤ hugeBall.pos.x ∧ hugeBall.pos.x ≤ (WIDTH : ℝ) ∧ 0 ≤ hugeBall.pos.y ∧
      hugeBall.pos.y ≤ (HEIGHT : ℝ) ∧ 0 ≤ hugeBall.radius) ∧
    (UpdateBallBounds hugeBall).bounds.w = -1894967296 ∧
    (UpdateBallBounds hugeBall).bounds.h = -1894967296 ∧
    ¬ 0 ≤ (UpdateBallBounds hugeBall).bounds.w ∧
    ¬ 0 ≤ (UpdateBallBounds hugeBall).bounds.h := by
  obtain ⟨_, _, _, bw, bh⟩ := hugeBall_box
  refine ⟨?_, bw, bh, ?_, ?_⟩
  · simp only [hugeBall, WIDTH, HEIGHT]
    norm_num
  · rw [bw]
    decide
  · rw [bh]
    decide

/-- C12, amended: for a ball with position inside `[0, WIDTH] x [0, HEIGHT]` and radius
in `[0, 8000000]` (no `int` operation of `UpdateBallBounds` wraps then) the box after
`UpdateBallBounds` lies inside the `960 x 600` grid: `x`, `y`, `w`, `h` are not
negative, `x + w ≤ 960` and `y + h ≤ 600`. -/
theorem UpdateBallBounds_inside_grid (ball : Ball)
    (hx0 : 0 ≤ ball.pos.x) (hx1 : ball.pos.x ≤ (WIDTH : ℝ))
    (hy0 : 0 ≤ ball.pos.y) (hy1 : ball.pos.y ≤ (HEIGHT : ℝ))
    (hr : 0 ≤ ball.radius) (hR : ball.radius ≤ 8000000) :
    0 ≤ (UpdateBallBounds ball).bounds.x ∧ 0 ≤ (UpdateBallBounds ball).bounds.y ∧
    0 ≤ (UpdateBallBounds ball).bounds.w ∧ 0 ≤ (UpdateBallBounds ball).bounds.h ∧
    (UpdateBallBounds ball).bounds.x + (UpdateBallBounds ball).bounds.w ≤ 960 ∧
    (UpdateBallBounds ball).bounds.y + (UpdateBallBounds ball).bounds.h ≤ 600 := by
  have hW : ball.pos.x ≤ 1920 := by
    unfold WIDTH at hx1
    exact_mod_cast hx1
  have hH : ball.pos.y ≤ 1200 := by
    unfold HEIGHT at hy1
    exact_mod_cast hy1
  have hw0 := halfWidth_nonneg ball.radius hr
  have hw1 := halfWidth_le_billion ball.radius hr hR
  obtain ⟨cx0, cx1⟩ := cellOf_range ball.pos.x 960 (by norm_num) hx0 (by push_cast; linarith)
  obtain ⟨cy0, cy1⟩ := cellOf_range ball.pos.y 600 (by norm_num) hy0 (by push_cast; linarith)
  have cx2 : cellOf ball.pos.x ≤ 960 := by exact_mod_cast cx1
  have cy2 : cellOf ball.pos.y ≤ 600 := by exact_mod_cast cy1
  obtain ⟨bx, by1, bw, bh⟩ := UpdateBallBounds_nowrap ball hw0 hw1 cx0 cx2 cy0 cy2
  have hx : 0 ≤ (UpdateBallBounds ball).bounds.x ∧ (UpdateBallBounds ball).bounds.x ≤ 960 := by
    rw [bx]
    omega
  have hy : 0 ≤ (UpdateBallBounds ball).bounds.y ∧ (UpdateBallBounds ball).bounds.y ≤ 600 := by
    rw [by1]
    omega
  have hw : 0 ≤ (UpdateBallBounds ball).bounds.w ∧
      (UpdateBallBounds ball).bounds.w ≤ 960 - (UpdateBallBounds ball).bounds.x := by
    rw [bw]
    omega
  have hh2 : 0 ≤ (UpdateBallBounds ball).bounds.h ∧
      (UpdateBallBounds ball).bounds.h ≤ 600 - (UpdateBallBounds ball).bounds.y := by
    rw [bh]
    omega
  refine ⟨hx.1, hy.1, hw.1, hh2.1, ?_, ?_⟩ <;> omega

/-- Witness of C12, amended: the ball `edgeBall`, at `(0, 600)` with a radius near five
sixths. -/
theorem UpdateBallBounds_inside_grid_witness :
    0 ≤ (UpdateBallBounds edgeBall).bounds.x ∧ 0 ≤ (UpdateBallBounds edgeBall).bounds.y ∧
    0 ≤ (UpdateBallBounds edgeBall).bounds.w ∧ 0 ≤ (UpdateBallBounds edgeBall).bounds.h ∧
    (UpdateBallBounds edgeBall).bounds.x + (UpdateBallBounds edgeBall).bounds.w ≤ 960 ∧
    (UpdateBallBounds edgeBall).bounds.y + (UpdateBallBounds edgeBall).bounds.h ≤ 600 :=
  UpdateBallBounds_inside_grid edgeBall (show (0 : ℝ) ≤ 0 by norm_num)
    (show (0 : ℝ) ≤ (WIDTH : ℝ) by norm_num)
    (show (0 : ℝ) ≤ 600 by norm_num)
    (show (600 : ℝ) ≤ (HEIGHT : ℝ) by unfold HEIGHT; norm_num)
    (show (0 : ℝ) ≤ 13981013 / 16777216 by norm_num)
    (show (13981013 / 16777216 : ℝ) ≤ 8000000 by norm_num)

/-! ## Physics: position range and velocity -/

/-- The magnitude of a rounded value stays under a float bound on the exact value. -/
theorem abs_rnd_le (x c : ℝ) (hc : IsFloat c) (h : |x| ≤ c) : |rnd x| ≤ c := by
  obtain ⟨m, k, hm, hk, e⟩ := hc
  have hn : IsFloat (-c) := ⟨-m, k, by rw [abs_neg]; exact hm, hk, by rw [e]; push_cast; ring⟩
  obtain ⟨h1, h2⟩ := abs_le.mp h
  exact abs_le.mpr ⟨le_rnd_of_le x (-c) hn h1, rnd_le_of_le x c ⟨m, k, hm, hk, e⟩ h2⟩

/-- The integration of one axis on numbers of moderate size: the result is a number,
and neither it nor an intermediate value reaches `2 ^ 127`, so no operation of the
integration overflows the range of binary32. -/
theorem integrate_number (p v dt : ℝ) (hp : |p| ≤ 10 ^ 30) (hv : |v| ≤ 10 ^ 30)
    (hdt : |dt| ≤ 10000) :
    |rnd (v * BASE_SPEED)| ≤ 2 ^ 109 ∧ |rnd (rnd (v * BASE_SPEED) * dt)| ≤ 2 ^ 123 ∧
    |rnd (p + rnd (rnd (v * BASE_SPEED) * dt))| ≤ 2 ^ 124 ∧
    integrate (some p) (some v) dt = some (rnd (p + rnd (rnd (v * BASE_SPEED) * dt))) := by
  have f1 : IsFloat ((2 : ℝ) ^ 109) := ⟨1, 109, by norm_num, by norm_num, by norm_num⟩
  have f2 : IsFloat ((2 : ℝ) ^ 123) := ⟨1, 123, by norm_num, by norm_num, by norm_num⟩
  have f3 : IsFloat ((2 : ℝ) ^ 124) := ⟨1, 124, by norm_num, by norm_num, by norm_num⟩
  have h1 : |rnd (v * BASE_SPEED)| ≤ 2 ^ 109 := by
    apply abs_rnd_le _ _ f1
    unfold BASE_SPEED
    rw [abs_mul, abs_of_nonneg (by norm_num : (0 : ℝ) ≤ 300)]
    calc |v| * 300 ≤ 10 ^ 30 * 300 := by linarith
      _ ≤ 2 ^ 109 := by norm_num
  have h2 : |rnd (rnd (v * BASE_SPEED) * dt)| ≤ 2 ^ 123 := by
    apply abs_rnd_le _ _ f2
    rw [abs_mul]
    calc |rnd (v * BASE_SPEED)| * |dt| ≤ 2 ^ 109 * 10000 :=
          mul_le_mul h1 hdt (abs_nonneg _) (by norm_num)
      _ ≤ 2 ^ 123 := by norm_num
  have h3 : |rnd (p + rnd (rnd (v * BASE_SPEED) * dt))| ≤ 2 ^ 124 := by
    apply abs_rnd_le _ _ f3
    calc |p + rnd (rnd (v * BASE_SPEED) * dt)| ≤ |p| + |rnd (rnd (v * BASE_SPEED) * dt)| :=
          abs_add _ _
      _ ≤ 10 ^ 30 + 2 ^ 123 := add_le_add hp h2
      _ ≤ 2 ^ 124 := by norm_num
  exact ⟨h1, h2, h3, rfl⟩

/-- One axis of the physics step on a coordinate that is a number after the
integration: the coordinate ends in `[0, bound]`. -/
theorem moveAxis_number (pos vel : Option ℝ) (dt bound q : ℝ) (hb : 0 < bound)
    (h : integrate pos vel dt = some q) :
    ∃ x, (moveAxis pos vel dt bound).1 = some x ∧ 0 ≤ x ∧ x ≤ bound := by
  unfold moveAxis
  generalize integrate pos vel dt = p at h ⊢
  subst h
  simp only []
  by_cases h0 : nleN (some q) 0
  · rw [if_pos h0]
    have hn : ¬ ngeN (some (0 : ℝ)) bound := by
      rintro ⟨x, hx, hx2⟩
      have := Option.some.inj hx
      linarith
    rw [if_neg hn]
    exact ⟨0, rfl, le_refl _, hb.le⟩
  · rw [if_neg h0]
    have hq : 0 < q := by
      by_contra hc
      exact h0 ⟨q, rfl, not_lt.mp hc⟩
    by_cases h1 : ngeN (some q) bound
    · rw [if_pos h1]
      exact ⟨bound, rfl, hb.le, le_refl _⟩
    · rw [if_neg h1]
      refine ⟨q, rfl, hq.le, ?_⟩
      by_contra hc
      exact h1 ⟨q, rfl, (not_le.mp hc).le⟩

/-- One axis of the physics step on a NaN velocity: the coordinate and the velocity
come out NaN, whatever the coordinate and the elapsed time were. -/
theorem moveAxis_nan (pos : Option ℝ) (dt bound : ℝ) :
    moveAxis pos none dt bound = (none, none) := by
  have hi : integrate pos none dt = none := by
    unfold integrate nmulN naddN
    cases pos <;> rfl
  have h0 : ∀ c : ℝ, ¬ nleN none c := by
    rintro c ⟨x, hx, _⟩
    exact Option.noConfusion hx
  have h1 : ∀ c : ℝ, ¬ ngeN none c := by
    rintro c ⟨x, hx, _⟩
    exact Option.noConfusion hx
  unfold moveAxis
  generalize integrate pos none dt = p at hi ⊢
  subst hi
  simp only []
  rw [if_neg (h0 0)]
  simp only []
  rw [if_neg (h1 bound)]

/-- The claim C13 as stated fails for a ball state that `Init` itself stores: `nanBall`
(the ball of the velocity draws `2 ^ 30`, `2 ^ 30` under `RAND_MAX = 2147483647`) has
the position `(0, 0)` and the velocity `(NaN, NaN)`, and after one physics step of any
duration both coordinates are NaN: every one of the four comparisons is false, nothing
is clamped, and neither `0 ≤ pos.x ≤ WIDTH` nor `0 ≤ pos.y ≤ HEIGHT` holds. -/
theorem nan_velocity_escapes_clamp :
    nanBall.pos.x = some 0 ∧ nanBall.pos.y = some 0 ∧
    nanBall.vel.x = none ∧ nanBall.vel.y = none ∧
    (∀ dt : ℝ, (moveN nanBall dt).pos.x = none ∧ (moveN nanBall dt).pos.y = none ∧
      (¬ ∃ x, (moveN nanBall dt).pos.x = some x ∧ 0 ≤ x ∧ x ≤ (WIDTH : ℝ)) ∧
      (¬ ∃ y, (moveN nanBall dt).pos.y = some y ∧ 0 ≤ y ∧ y ≤ (HEIGHT : ℝ))) := by
  have hv : nanBall.vel = normalizeVelocity 0 0 := by
    show normalizeVelocity (rawVelocity 2147483647 1073741824)
      (rawVelocity 2147483647 1073741824) = normalizeVelocity 0 0
    rw [rawVelocity_half]
  obtain ⟨hx, hy⟩ := normalizeVelocity_zero_nan
  have vx : nanBall.vel.x = none := by rw [hv]; exact hx
  have vy : nanBall.vel.y = none := by rw [hv]; exact hy
  have px : nanBall.pos.x = some 0 := by
    show some (((0 % WIDTH : Nat) : ℝ)) = some 0
    simp
  have py : nanBall.pos.y = some 0 := by
    show some (((0 % HEIGHT : Nat) : ℝ)) = some 0
    simp
  refine ⟨px, py, vx, vy, ?_⟩
  intro dt
  have mx : (moveN nanBall dt).pos.x = none := by
    show (moveAxis nanBall.pos.x nanBall.vel.x dt (WIDTH : ℝ)).1 = none
    rw [vx, moveAxis_nan]
  have my : (moveN nanBall dt).pos.y = none := by
    show (moveAxis nanBall.pos.y nanBall.vel.y dt (HEIGHT : ℝ)).1 = none
    rw [vy, moveAxis_nan]
  refine ⟨mx, my, ?_, ?_⟩
  · rintro ⟨x, h, _⟩
    rw [mx] at h
    exact Option.noConfusion h
  · rintro ⟨y, h, _⟩
    rw [my] at h
    exact Option.noConfusion h

/-- C13, amended: for a ball whose position and velocity are numbers (not NaN) of
magnitude at most `10 ^ 30` and an elapsed time of magnitude at most 10000 seconds, no
operation of the integration overflows (every value stays below `2 ^ 124`), and after
one physics step the position is a number with `0 ≤ pos.x ≤ WIDTH` and
`0 ≤ pos.y ≤ HEIGHT`, the position precondition of `UpdateBallBounds`. -/
theorem moveN_pos_in_range (ball : NBall) (px py vx vy dt : ℝ)
    (hpx : ball.pos.x = some px) (hpy : ball.pos.y = some py)
    (hvx : ball.vel.x = some vx) (hvy : ball.vel.y = some vy)
    (bpx : |px| ≤ 10 ^ 30) (bpy : |py| ≤ 10 ^ 30)
    (bvx : |vx| ≤ 10 ^ 30) (bvy : |vy| ≤ 10 ^ 30) (bdt : |dt| ≤ 10000) :
    (∃ x y, (moveN ball dt).pos.x = some x ∧ (moveN ball dt).pos.y = some y ∧
      0 ≤ x ∧ x ≤ (WIDTH : ℝ) ∧ 0 ≤ y ∧ y ≤ (HEIGHT : ℝ)) ∧
    (∃ ix iy, integrate ball.pos.x ball.vel.x dt = some ix ∧
      integrate ball.pos.y ball.vel.y dt = some iy ∧ |ix| ≤ 2 ^ 124 ∧ |iy| ≤ 2 ^ 124) := by
  have hW : (0 : ℝ) < (WIDTH : ℝ) := by
    unfold WIDTH
    norm_num
  have hH : (0 : ℝ) < (HEIGHT : ℝ) := by
    unfold HEIGHT
    norm_num
  obtain ⟨_, _, ax, ix⟩ := integrate_number px vx dt bpx bvx bdt
  obtain ⟨_, _, ay, iy⟩ := integrate_number py vy dt bpy bvy bdt
  rw [← hpx, ← hvx] at ix
  rw [← hpy, ← hvy] at iy
  obtain ⟨x, ex, x0, x1⟩ := moveAxis_number ball.pos.x ball.vel.x dt (WIDTH : ℝ) _ hW ix
  obtain ⟨y, ey, y0, y1⟩ := moveAxis_number ball.pos.y ball.vel.y dt (HEIGHT : ℝ) _ hH iy
  exact ⟨⟨x, y, ex, ey, x0, x1, y0, y1⟩, ⟨_, _, ix, iy, ax, ay⟩⟩

/-- Witness of C13, amended: a ball at `(-5, 600)` moving left at unit speed, a step of
one sixty-fourth of a second. -/
theorem moveN_pos_in_range_witness :
    (∃ x y,
      (moveN ⟨⟨some (-5), some 600⟩, ⟨some (-1), some 0⟩, 20, red, ⟨0, 0, 0, 0⟩, 1⟩
        (1 / 64)).pos.x = some x ∧
      (moveN ⟨⟨some (-5), some 600⟩, ⟨some (-1), some 0⟩, 20, red, ⟨0, 0, 0, 0⟩, 1⟩
        (1 / 64)).pos.y = some y ∧
      0 ≤ x ∧ x ≤ (WIDTH : ℝ) ∧ 0 ≤ y ∧ y ≤ (HEIGHT : ℝ)) ∧
    (∃ ix iy, integrate (some (-5)) (some (-1)) (1 / 64) = some ix ∧
      integrate (some 600) (some 0) (1 / 64) = some iy ∧
      |ix| ≤ 2 ^ 124 ∧ |iy| ≤ 2 ^ 124) :=
  moveN_pos_in_range ⟨⟨some (-5), some 600⟩, ⟨some (-1), some 0⟩, 20, red, ⟨0, 0, 0, 0⟩, 1⟩
    (-5) 600 (-1) 0 (1 / 64) rfl rfl rfl rfl
    (by rw [abs_of_neg (by norm_num)]; norm_num)
    (by rw [abs_of_nonneg (by norm_num)]; norm_num)
    (by rw [abs_of_neg (by norm_num)]; norm_num)
    (by rw [abs_of_nonneg (by norm_num)]; norm_num)
    (by rw [abs_of_nonneg (by norm_num)]; norm_num)

/-! ## Bounding boxes against the centred square -/

/-- The centre and the half-width of `edgeBall` as the code computes them, and the
half-width in exact arithmetic: the single-precision product rounds up to 100. -/
theorem edgeBall_trunc :
    cellOf edgeBall.pos.x = 0 ∧ cellOf edgeBall.pos.y = 300 ∧
    halfWidth edgeBall.radius = 100 ∧ toInt (edgeBall.radius * 200 / 2 * 1.2) = 99 := by
  refine ⟨?_, ?_, ?_, ?_⟩
  · have e : edgeBall.pos.x / ((GRID_SCALE : Nat) : ℝ) = 0 := by
      simp only [edgeBall, GRID_SCALE]
      norm_num
    unfold cellOf
    rw [e, rnd_zero, toInt_of_nonneg _ (le_refl _)]
    exact Int.floor_zero
  · exact smallBall_trunc.2.2
  · have e1 : rnd (edgeBall.radius * INFLUENCE_RADIUS) =
        (10922666 : Int) * (2 : ℝ) ^ (-16 : Int) := by
      have e : edgeBall.radius * INFLUENCE_RADIUS = 13981013 / 16777216 * 200 := rfl
      rw [e]
      exact rnd_eq_pos _ 10922666 (-16) (by norm_num) (by norm_num) (by norm_num)
        (by norm_num) (by norm_num)
    have e2 : ((10922666 : Int) : ℝ) * (2 : ℝ) ^ (-16 : Int) / ((GRID_SCALE : Nat) : ℝ) =
        10922666 / 131072 := by
      unfold GRID_SCALE
      norm_num
    have e3 : rnd (10922666 / 131072 : ℝ) = 10922666 / 131072 :=
      rnd_of_isFloat _ ⟨10922666, -17, by norm_num, by norm_num, by norm_num⟩
    have e4 : rnd ((10922666 / 131072 : ℝ) * (10066330 / 8388608)) =
        (13107200 : Int) * (2 : ℝ) ^ (-17 : Int) :=
      rnd_eq_pos _ 13107200 (-17) (by norm_num) (by norm_num) (by norm_num) (by norm_num)
        (by norm_num)
    unfold halfWidth
    rw [e1, e2, e3, rnd_12, e4, toInt_of_nonneg _ (by norm_num)]
    rw [Int.floor_eq_iff]
    norm_num
  · have e : edgeBall.radius * 200 / 2 * 1.2 = 13981013 / 16777216 * 200 / 2 * 1.2 := rfl
    rw [e, toInt_of_nonneg _ (by norm_num), Int.floor_eq_iff]
    norm_num

/-- The claim C15 as stated fails at the left edge: `edgeBall` (position `(0, 600)`,
half-width 100, centre cell `(0, 300)`) gets the box `x 0, y 200, w 200, h 200`; the
grid cell `(col 150, row 300)` passes the containment test and lies outside the centred
square `[-100, 100) x [200, 400)`.  The half-width is also not the `trunc` of the exact
product, which is 99 for this radius. -/
theorem edge_box_wider_than_square :
    (0 ≤ edgeBall.pos.x ∧ edgeBall.pos.x ≤ (WIDTH : ℝ) ∧ 0 ≤ edgeBall.pos.y ∧
      edgeBall.pos.y ≤ (HEIGHT : ℝ) ∧ 0 ≤ edgeBall.radius) ∧
    (UpdateBallBounds edgeBall).bounds.x = 0 ∧ (UpdateBallBounds edgeBall).bounds.y = 200 ∧
    (UpdateBallBounds edgeBall).bounds.w = 200 ∧ (UpdateBallBounds edgeBall).bounds.h = 200 ∧
    inGrid 300 150 ∧ inBounds (UpdateBallBounds edgeBall).bounds 300 150 ∧
    ¬ centredSquare edgeBall 300 150 ∧
    halfWidth edgeBall.radius = 100 ∧ toInt (edgeBall.radius * 200 / 2 * 1.2) = 99 := by
  obtain ⟨tx, ty, th, te⟩ := edgeBall_trunc
  obtain ⟨bx, by1, bw, bh⟩ := UpdateBallBounds_bounds edgeBall
  rw [tx, th] at bx
  rw [ty, th] at by1
  rw [th] at bw bh
  have bx1 : (UpdateBallBounds edgeBall).bounds.x = 0 := by rw [bx]; decide
  have by2 : (UpdateBallBounds edgeBall).bounds.y = 200 := by rw [by1]; decide
  have bw1 : (UpdateBallBounds edgeBall).bounds.w = 200 := by rw [bw, bx1]; decide
  have bh1 : (UpdateBallBounds edgeBall).bounds.h = 200 := by rw [bh, by2]; decide
  refine ⟨?_, bx1, by2, bw1, bh1, ?_, ?_, ?_, th, te⟩
  · simp only [edgeBall, WIDTH, HEIGHT]
    norm_num
  · unfold inGrid
    omega
  · unfold inBounds
    rw [bx1, by2, bw1, bh1]
    omega
  · unfold centredSquare
    rw [tx, ty, th]
    omega

/-- C15, amended: for a ball with position inside `[0, WIDTH] x [0, HEIGHT]` and radius
in `[0, 8000000]`, with the centre `cx`, `cy` and the half-width `h` as the code
computes them in single precision (`cellOf`, `halfWidth`), every grid cell of the
centred square passes the containment test; and when on each axis the square does not
cross the low edge of the grid or reaches its high edge (`h ≤ cx` or `960 ≤ cx + h`,
and `h ≤ cy` or `600 ≤ cy + h`, as for every radius of `Init`), the cells passing the
test are exactly the grid cells of the centred square. -/
theorem UpdateBallBounds_square (ball : Ball) (row col : Int)
    (hx0 : 0 ≤ ball.pos.x) (hx1 : ball.pos.x ≤ (WIDTH : ℝ))
    (hy0 : 0 ≤ ball.pos.y) (hy1 : ball.pos.y ≤ (HEIGHT : ℝ))
    (hr : 0 ≤ ball.radius) (hR : ball.radius ≤ 8000000) :
    (inGrid row col ∧ centredSquare ball row col →
      inBounds (UpdateBallBounds ball).bounds row col) ∧
    ((halfWidth ball.radius ≤ cellOf ball.pos.x ∨
        960 ≤ cellOf ball.pos.x + halfWidth ball.radius) →
      (halfWidth ball.radius ≤ cellOf ball.pos.y ∨
        600 ≤ cellOf ball.pos.y + halfWidth ball.radius) →
      (inBounds (UpdateBallBounds ball).bounds row col ↔
        inGrid row col ∧ centredSquare ball row col)) := by
  have hW : ball.pos.x ≤ 1920 := by
    unfold WIDTH at hx1
    exact_mod_cast hx1
  have hH : ball.pos.y ≤ 1200 := by
    unfold HEIGHT at hy1
    exact_mod_cast hy1
  have hw0 := halfWidth_nonneg ball.radius hr
  have hw1 := halfWidth_le_billion ball.radius hr hR
  obtain ⟨cx0, cx1⟩ := cellOf_range ball.pos.x 960 (by norm_num) hx0 (by push_cast; linarith)
  obtain ⟨cy0, cy1⟩ := cellOf_range ball.pos.y 600 (by norm_num) hy0 (by push_cast; linarith)
  have cx2 : cellOf ball.pos.x ≤ 960 := by exact_mod_cast cx1
  have cy2 : cellOf ball.pos.y ≤ 600 := by exact_mod_cast cy1
  obtain ⟨bx, by1, bw, bh⟩ := UpdateBallBounds_nowrap ball hw0 hw1 cx0 cx2 cy0 cy2
  unfold inBounds inGrid centredSquare
  rw [bw, bh, bx, by1]
  constructor
  · intro h
    omega
  · intro hX hY
    omega

/-- Witness of C15, amended: `smallBall`, radius one half at the middle of the screen,
and the cell `(col 450, row 300)`. -/
theorem UpdateBallBounds_square_witness :
    (inGrid 300 450 ∧ centredSquare smallBall 300 450 →
      inBounds (UpdateBallBounds smallBall).bounds 300 450) ∧
    ((halfWidth smallBall.radius ≤ cellOf smallBall.pos.x ∨
        960 ≤ cellOf smallBall.pos.x + halfWidth smallBall.radius) →
      (halfWidth smallBall.radius ≤ cellOf smallBall.pos.y ∨
        600 ≤ cellOf smallBall.pos.y + halfWidth smallBall.radius) →
      (inBounds (UpdateBallBounds smallBall).bounds 300 450 ↔
        inGrid 300 450 ∧ centredSquare smallBall 300 450)) :=
  UpdateBallBounds_square smallBall 300 450
    (show (0 : ℝ) ≤ 960 by norm_num)
    (show (960 : ℝ) ≤ (WIDTH : ℝ) by unfold WIDTH; norm_num)
    (show (0 : ℝ) ≤ 600 by norm_num)
    (show (600 : ℝ) ≤ (HEIGHT : ℝ) by unfold HEIGHT; norm_num)
    (show (0 : ℝ) ≤ 1 / 2 by norm_num) (show (1 / 2 : ℝ) ≤ 8000000 by norm_num)

/-! ## Colour blending: evaluating a channel -/

/-- A computed channel is the floor of the square root of
`c1 ^ 2 + c2 ^ 2 * factor`, clamped at 255. -/
theorem blendChannel_sqrt (c1 c2 : Nat) (f : ℝ) :
    blendChannel c1 c2 f =
      ⌊min (Real.sqrt ((c1 : ℝ) ^ 2 + (c2 : ℝ) ^ 2 * f)) 255⌋₊ := by
  unfold blendChannel
  have e : (c1 : ℝ) / 255 * ((c1 : ℝ) / 255) + (c2 : ℝ) / 255 * ((c2 : ℝ) / 255) * f =
      ((c1 : ℝ) ^ 2 + (c2 : ℝ) ^ 2 * f) / (255 * 255) := by
    field_simp
    ring
  simp only [e]
  rw [Real.sqrt_div' _ (by norm_num), Real.sqrt_mul_self (by norm_num)]
  have e2 : Real.sqrt ((c1 : ℝ) ^ 2 + (c2 : ℝ) ^ 2 * f) / 255 * 255 =
      Real.sqrt ((c1 : ℝ) ^ 2 + (c2 : ℝ) ^ 2 * f) := by
    field_simp
  rw [e2]

/-- A computed channel is `n < 255` when `c1 ^ 2 + c2 ^ 2 * factor` lies in
`[n ^ 2, (n + 1) ^ 2)`. -/
theorem blendChannel_eq (c1 c2 n : Nat) (f : ℝ) (hn : n < 255)
    (h1 : (n : ℝ) ^ 2 ≤ (c1 : ℝ) ^ 2 + (c2 : ℝ) ^ 2 * f)
    (h2 : (c1 : ℝ) ^ 2 + (c2 : ℝ) ^ 2 * f < ((n : ℝ) + 1) ^ 2) :
    blendChannel c1 c2 f = n := by
  rw [blendChannel_sqrt]
  have hn0 : (0 : ℝ) ≤ (n : ℝ) := Nat.cast_nonneg n
  have hq : (0 : ℝ) ≤ (c1 : ℝ) ^ 2 + (c2 : ℝ) ^ 2 * f := le_trans (sq_nonneg _) h1
  have hlo : (n : ℝ) ≤ Real.sqrt ((c1 : ℝ) ^ 2 + (c2 : ℝ) ^ 2 * f) :=
    (Real.le_sqrt hn0 hq).mpr h1
  have hhi : Real.sqrt ((c1 : ℝ) ^ 2 + (c2 : ℝ) ^ 2 * f) < (n : ℝ) + 1 :=
    (Real.sqrt_lt' (by linarith)).mpr h2
  have hn1 : (n : ℝ) + 1 ≤ 255 := by
    have : n + 1 ≤ 255 := hn
    exact_mod_cast this
  rw [min_eq_left (by linarith)]
  exact (Nat.floor_eq_iff (Real.sqrt_nonneg _)).mpr ⟨hlo, hhi⟩

/-- A computed channel is 255 when `c1 ^ 2 + c2 ^ 2 * factor` is at least `255 ^ 2`. -/
theorem blendChannel_saturated (c1 c2 : Nat) (f : ℝ)
    (h : (255 : ℝ) ^ 2 ≤ (c1 : ℝ) ^ 2 + (c2 : ℝ) ^ 2 * f) : blendChannel c1 c2 f = 255 := by
  rw [blendChannel_sqrt]
  have hq : (0 : ℝ) ≤ (c1 : ℝ) ^ 2 + (c2 : ℝ) ^ 2 * f := le_trans (sq_nonneg _) h
  have hlo : (255 : ℝ) ≤ Real.sqrt ((c1 : ℝ) ^ 2 + (c2 : ℝ) ^ 2 * f) :=
    (Real.le_sqrt (by norm_num) hq).mpr h
  rw [min_eq_right hlo]
  exact_mod_cast Nat.floor_natCast 255

/-- The packed result of `BlendColors` from the values of its three channels. -/
theorem BlendColors_of_channels (p n : Nat) (f : ℝ) (r g b : Nat)
    (hr : blendChannel (byteOf p 0) (byteOf n 0) f = r)
    (hg : blendChannel (byteOf p 1) (byteOf n 1) f = g)
    (hb : blendChannel (byteOf p 2) (byteOf n 2) f = b) :
    BlendColors p n f = 255 * 2 ^ 24 + b * 2 ^ 16 + g * 2 ^ 8 + r := by
  obtain ⟨e0, e1, e2⟩ := blend_bytes p n f
  rw [BlendColors_eq, e0, e1, e2, hr, hg, hb]

/-- A channel of known operand bytes. -/
theorem channel_of_bytes (p n i c1 c2 r : Nat) (f : ℝ) (h1 : byteOf p i = c1)
    (h2 : byteOf n i = c2) (h : blendChannel c1 c2 f = r) :
    blendChannel (byteOf p i) (byteOf n i) f = r := by
  rw [h1, h2, h]

/-! ## Compositor: balls at the middle of the screen -/

/-- A ball at `(960, 600)` with radius in `[8, 8000000]`, bounds refreshed, reaches the
centre cell `(row 300, col 480)` at distance 0 with factor `radius / 40 * intensity`. -/
theorem centre_cell (b0 : Ball) (hx : b0.pos.x = 960) (hy : b0.pos.y = 600)
    (hr : 8 ≤ b0.radius) (hR : b0.radius ≤ 8000000) :
    inBounds (UpdateBallBounds b0).bounds 300 480 ∧
    cellDistance (UpdateBallBounds b0) 300 480 = 0 ∧
    cellFactor (UpdateBallBounds b0) 300 480 = b0.radius / 40 * b0.intensity := by
  have hb : inBounds (UpdateBallBounds b0).bounds 300 480 := by
    apply wide_box_contains <;> first | (rw [hx]; norm_num) | (rw [hy]; norm_num) | assumption | norm_num
  have hd : cellDistance (UpdateBallBounds b0) 300 480 = 0 :=
    centre_distance _ hx hy
  refine ⟨hb, hd, ?_⟩
  unfold cellFactor
  rw [hd]
  have hrad : (UpdateBallBounds b0).radius = b0.radius := rfl
  have hint : (UpdateBallBounds b0).intensity = b0.intensity := rfl
  rw [hrad, hint,
    SmoothFalloff_at_zero b0.radius INFLUENCE_RADIUS (by unfold INFLUENCE_RADIUS; norm_num)]

/-- One pass of the ball loop for a ball that reaches the cell. -/
theorem cellStep_reached (row col : Int) (acc : Nat × ℝ) (ball : Ball) (c : Nat) (f : ℝ)
    (hb : inBounds ball.bounds row col) (hd : cellDistance ball row col < INFLUENCE_RADIUS)
    (hc : ColorToUint32 ball.color = c) (hf : cellFactor ball row col = f) :
    cellStep row col acc ball = (BlendColors acc.1 c f, acc.2 + f) := by
  unfold cellStep
  rw [if_pos hb, if_pos hd, hc, hf]

/-- The two balls `orderRed` and `orderMagenta` at the centre cell. -/
theorem order_balls_step (acc : Nat × ℝ) :
    cellStep 300 480 acc orderRed = (BlendColors acc.1 0xFF0000FF (1 / 4), acc.2 + 1 / 4) ∧
    cellStep 300 480 acc orderMagenta =
      (BlendColors acc.1 0xFFFF00FF (613 / 2000), acc.2 + 613 / 2000) := by
  constructor
  · obtain ⟨hb, hd, hf⟩ := centre_cell
      ⟨⟨960, 600⟩, ⟨1, 0⟩, 20, red, ⟨0, 0, 0, 0⟩, 1 / 2⟩ rfl rfl
      (show (8 : ℝ) ≤ 20 by norm_num) (show (20 : ℝ) ≤ 8000000 by norm_num)
    apply cellStep_reached _ _ _ _ _ _ hb
    · rw [hd]
      unfold INFLUENCE_RADIUS
      norm_num
    · decide
    · rw [hf]
      norm_num
  · obtain ⟨hb, hd, hf⟩ := centre_cell
      ⟨⟨960, 600⟩, ⟨0, 1⟩, 20, magenta, ⟨0, 0, 0, 0⟩, 613 / 1000⟩ rfl rfl
      (show (8 : ℝ) ≤ 20 by norm_num) (show (20 : ℝ) ≤ 8000000 by norm_num)
    apply cellStep_reached _ _ _ _ _ _ hb
    · rw [hd]
      unfold INFLUENCE_RADIUS
      norm_num
    · decide
    · rw [hf]
      norm_num

/-- The centre cell with `orderRed` visited before `orderMagenta`. -/
theorem red_then_magenta : cellPixel [orderRed, orderMagenta] 300 480 = 0xFF9F49CA := by
  have h1 : BlendColors 0 0xFF0000FF (1 / 4) = 0xFF00007F := by
    rw [BlendColors_of_channels 0 0xFF0000FF (1 / 4) 127 0 0
      (channel_of_bytes _ _ 0 0 255 127 _ (by decide) (by decide)
        (blendChannel_eq 0 255 127 _ (by norm_num) (by norm_num) (by norm_num)))
      (channel_of_bytes _ _ 1 0 0 0 _ (by decide) (by decide)
        (blendChannel_eq 0 0 0 _ (by norm_num) (by norm_num) (by norm_num)))
      (channel_of_bytes _ _ 2 0 0 0 _ (by decide) (by decide)
        (blendChannel_eq 0 0 0 _ (by norm_num) (by norm_num) (by norm_num)))]
    norm_num
  have h2 : BlendColors 0xFF00007F 0xFFFF00FF (613 / 2000) = 0xFF8D00BD := by
    rw [BlendColors_of_channels 0xFF00007F 0xFFFF00FF (613 / 2000) 189 0 141
      (channel_of_bytes _ _ 0 127 255 189 _ (by decide) (by decide)
        (blendChannel_eq 127 255 189 _ (by norm_num) (by norm_num) (by norm_num)))
      (channel_of_bytes _ _ 1 0 0 0 _ (by decide) (by decide)
        (blendChannel_eq 0 0 0 _ (by norm_num) (by norm_num) (by norm_num)))
      (channel_of_bytes _ _ 2 0 255 141 _ (by decide) (by decide)
        (blendChannel_eq 0 255 141 _ (by norm_num) (by norm_num) (by norm_num)))]
    norm_num
  have h3 : BlendColors 0xFF8D00BD 0xFFFFFFFF (1113 / 2000 * 0.15) = 0xFF9F49CA := by
    rw [BlendColors_of_channels 0xFF8D00BD 0xFFFFFFFF (1113 / 2000 * 0.15) 202 73 159
      (channel_of_bytes _ _ 0 189 255 202 _ (by decide) (by decide)
        (blendChannel_eq 189 255 202 _ (by norm_num) (by norm_num) (by norm_num)))
      (channel_of_bytes _ _ 1 0 255 73 _ (by decide) (by decide)
        (blendChannel_eq 0 255 73 _ (by norm_num) (by norm_num) (by norm_num)))
      (channel_of_bytes _ _ 2 141 255 159 _ (by decide) (by decide)
        (blendChannel_eq 141 255 159 _ (by norm_num) (by norm_num) (by norm_num)))]
    norm_num
  have hacc : accumulate [orderRed, orderMagenta] 300 480 = (0xFF8D00BD, 1113 / 2000) := by
    unfold accumulate
    simp only [List.foldl_cons, List.foldl_nil]
    rw [(order_balls_step _).1, (order_balls_step _).2]
    simp only []
    rw [h1, h2]
    norm_num
  unfold cellPixel ambientGlow
  rw [hacc]
  simp only []
  rw [if_pos (by norm_num), h3]

/-- The centre cell with `orderMagenta` visited before `orderRed`. -/
theorem magenta_then_red : cellPixel [orderMagenta, orderRed] 300 480 = 0xFF9F49CB := by
  have h1 : BlendColors 0 0xFFFF00FF (613 / 2000) = 0xFF8D008D := by
    rw [BlendColors_of_channels 0 0xFFFF00FF (613 / 2000) 141 0 141
      (channel_of_bytes _ _ 0 0 255 141 _ (by decide) (by decide)
        (blendChannel_eq 0 255 141 _ (by norm_num) (by norm_num) (by norm_num)))
      (channel_of_bytes _ _ 1 0 0 0 _ (by decide) (by decide)
        (blendChannel_eq 0 0 0 _ (by norm_num) (by norm_num) (by norm_num)))
      (channel_of_bytes _ _ 2 0 255 141 _ (by decide) (by decide)
        (blendChannel_eq 0 255 141 _ (by norm_num) (by norm_num) (by norm_num)))]
    norm_num
  have h2 : BlendColors 0xFF8D008D 0xFF0000FF (1 / 4) = 0xFF8D00BE := by
    rw [BlendColors_of_channels 0xFF8D008D 0xFF0000FF (1 / 4) 190 0 141
      (channel_of_bytes _ _ 0 141 255 190 _ (by decide) (by decide)
        (blendChannel_eq 141 255 190 _ (by norm_num) (by norm_num) (by norm_num)))
      (channel_of_bytes _ _ 1 0 0 0 _ (by decide) (by decide)
        (blendChannel_eq 0 0 0 _ (by norm_num) (by norm_num) (by norm_num)))
      (channel_of_bytes _ _ 2 141 0 141 _ (by decide) (by decide)
        (blendChannel_eq 141 0 141 _ (by norm_num) (by norm_num) (by norm_num)))]
    norm_num
  have h3 : BlendColors 0xFF8D00BE 0xFFFFFFFF (1113 / 2000 * 0.15) = 0xFF9F49CB := by
    rw [BlendColors_of_channels 0xFF8D00BE 0xFFFFFFFF (1113 / 2000 * 0.15) 203 73 159
      (channel_of_bytes _ _ 0 190 255 203 _ (by decide) (by decide)
        (blendChannel_eq 190 255 203 _ (by norm_num) (by norm_num) (by norm_num)))
      (channel_of_bytes _ _ 1 0 255 73 _ (by decide) (by decide)
        (blendChannel_eq 0 255 73 _ (by norm_num) (by norm_num) (by norm_num)))
      (channel_of_bytes _ _ 2 141 255 159 _ (by decide) (by decide)
        (blendChannel_eq 141 255 159 _ (by norm_num) (by norm_num) (by norm_num)))]
    norm_num
  have hacc : accumulate [orderMagenta, orderRed] 300 480 = (0xFF8D00BE, 1113 / 2000) := by
    unfold accumulate
    simp only [List.foldl_cons, List.foldl_nil]
    rw [(order_balls_step _).2, (order_balls_step _).1]
    simp only []
    rw [h1, h2]
    norm_num
  unfold cellPixel ambientGlow
  rw [hacc]
  simp only []
  rw [if_pos (by norm_num), h3]

/-! ## Colour blending: order of the contributions -/

/-- C16: `BlendColors` depends on the order of the contributions.  From the existing
pixel 0, red with factor `2 / 65025` and then magenta with factor `7 / 130050` give
`0xFF010002`, and the same two contributions in the other order give `0xFF010001`; so
there are an existing pixel, two colours and two factors `≥ 0` for which the two orders
differ.  In the compositor: a red ball (intensity 0.5) and a magenta ball (intensity
0.613), both of radius 20 at the middle of the screen, give the centre cell the pixel
`0xFF9F49CA` when the red ball has the lower index and `0xFF9F49CB` when the magenta
ball has it. -/
theorem BlendColors_order_dependent :
    BlendColors (BlendColors 0 0xFF0000FF (2 / 65025)) 0xFFFF00FF (7 / 130050) =
      0xFF010002 ∧
    BlendColors (BlendColors 0 0xFFFF00FF (7 / 130050)) 0xFF0000FF (2 / 65025) =
      0xFF010001 ∧
    (∃ (existing c1 c2 : Nat) (f1 f2 : ℝ), 0 ≤ f1 ∧ 0 ≤ f2 ∧
      BlendColors (BlendColors existing c1 f1) c2 f2 ≠
        BlendColors (BlendColors existing c2 f2) c1 f1) ∧
    cellPixel [orderRed, orderMagenta] 300 480 = 0xFF9F49CA ∧
    cellPixel [orderMagenta, orderRed] 300 480 = 0xFF9F49CB ∧
    cellPixel [orderRed, orderMagenta] 300 480 ≠
      cellPixel [orderMagenta, orderRed] 300 480 := by
  have hA : BlendColors 0 0xFF0000FF (2 / 65025) = 0xFF000001 := by
    rw [BlendColors_of_channels 0 0xFF0000FF (2 / 65025) 1 0 0
      (channel_of_bytes _ _ 0 0 255 1 _ (by decide) (by decide)
        (blendChannel_eq 0 255 1 _ (by norm_num) (by norm_num) (by norm_num)))
      (channel_of_bytes _ _ 1 0 0 0 _ (by decide) (by decide)
        (blendChannel_eq 0 0 0 _ (by norm_num) (by norm_num) (by norm_num)))
      (channel_of_bytes _ _ 2 0 0 0 _ (by decide) (by decide)
        (blendChannel_eq 0 0 0 _ (by norm_num) (by norm_num) (by norm_num)))]
    norm_num
  have hB : BlendColors 0xFF000001 0xFFFF00FF (7 / 130050) = 0xFF010002 := by
    rw [BlendColors_of_channels 0xFF000001 0xFFFF00FF (7 / 130050) 2 0 1
      (channel_of_bytes _ _ 0 1 255 2 _ (by decide) (by decide)
        (blendChannel_eq 1 255 2 _ (by norm_num) (by norm_num) (by norm_num)))
      (channel_of_bytes _ _ 1 0 0 0 _ (by decide) (by decide)
        (blendChannel_eq 0 0 0 _ (by norm_num) (by norm_num) (by norm_num)))
      (channel_of_bytes _ _ 2 0 255 1 _ (by decide) (by decide)
        (blendChannel_eq 0 255 1 _ (by norm_num) (by norm_num) (by norm_num)))]
    norm_num
  have hC : BlendColors 0 0xFFFF00FF (7 / 130050) = 0xFF010001 := by
    rw [BlendColors_of_channels 0 0xFFFF00FF (7 / 130050) 1 0 1
      (channel_of_bytes _ _ 0 0 255 1 _ (by decide) (by decide)
        (blendChannel_eq 0 255 1 _ (by norm_num) (by norm_num) (by norm_num)))
      (channel_of_bytes _ _ 1 0 0 0 _ (by decide) (by decide)
        (blendChannel_eq 0 0 0 _ (by norm_num) (by norm_num) (by norm_num)))
      (channel_of_bytes _ _ 2 0 255 1 _ (by decide) (by decide)
        (blendChannel_eq 0 255 1 _ (by norm_num) (by norm_num) (by norm_num)))]
    norm_num
  have hD : BlendColors 0xFF010001 0xFF0000FF (2 / 65025) = 0xFF010001 := by
    rw [BlendColors_of_channels 0xFF010001 0xFF0000FF (2 / 65025) 1 0 1
      (channel_of_bytes _ _ 0 1 255 1 _ (by decide) (by decide)
        (blendChannel_eq 1 255 1 _ (by norm_num) (by norm_num) (by norm_num)))
      (channel_of_bytes _ _ 1 0 0 0 _ (by decide) (by decide)
        (blendChannel_eq 0 0 0 _ (by norm_num) (by norm_num) (by norm_num)))
      (channel_of_bytes _ _ 2 1 0 1 _ (by decide) (by decide)
        (blendChannel_eq 1 0 1 _ (by norm_num) (by norm_num) (by norm_num)))]
    norm_num
  have h1 : BlendColors (BlendColors 0 0xFF0000FF (2 / 65025)) 0xFFFF00FF (7 / 130050) =
      0xFF010002 := by rw [hA, hB]
  have h2 : BlendColors (BlendColors 0 0xFFFF00FF (7 / 130050)) 0xFF0000FF (2 / 65025) =
      0xFF010001 := by rw [hC, hD]
  refine ⟨h1, h2, ⟨0, 0xFF0000FF, 0xFFFF00FF, 2 / 65025, 7 / 130050, by norm_num,
    by norm_num, ?_⟩, red_then_magenta, magenta_then_red, ?_⟩
  · rw [h1, h2]
    decide
  · rw [red_then_magenta, magenta_then_red]
    decide

/-! ## Bounding boxes of wide balls -/

/-- The claim C17 as stated fails for a large radius: `hugeBall` has its position
inside `[0, WIDTH] x [0, HEIGHT]` and radius `10000000 ≥ 8`, but `radius * 2` wraps in
`UpdateBallBounds`, the box is `x 0, y 0, w -1894967296, h -1894967296`, not the whole
grid, and the containment test culls every cell. -/
theorem huge_radius_box_culls_all :
    (0 ≤ hugeBall.pos.x ∧ hugeBall.pos.x ≤ (WIDTH : ℝ) ∧ 0 ≤ hugeBall.pos.y ∧
      hugeBall.pos.y ≤ (HEIGHT : ℝ) ∧ 8 ≤ hugeBall.radius) ∧
    ((UpdateBallBounds hugeBall).bounds.x = 0 ∧ (UpdateBallBounds hugeBall).bounds.y = 0 ∧
      (UpdateBallBounds hugeBall).bounds.w = -1894967296 ∧
      (UpdateBallBounds hugeBall).bounds.h = -1894967296) ∧
    (UpdateBallBounds hugeBall).bounds.w ≠ 960 ∧
    (UpdateBallBounds hugeBall).bounds.h ≠ 600 ∧
    (∀ row col : Int, inGrid row col →
      ¬ inBounds (UpdateBallBounds hugeBall).bounds row col) := by
  obtain ⟨_, bx, by1, bw, bh⟩ := hugeBall_box
  refine ⟨?_, ⟨bx, by1, bw, bh⟩, ?_, ?_, ?_⟩
  · simp only [hugeBall, WIDTH, HEIGHT]
    norm_num
  · rw [bw]
    decide
  · rw [bh]
    decide
  · intro row col hg
    unfold inGrid at hg
    unfold inBounds
    rw [bx, by1, bw, bh]
    omega

/-- Every ball that `Init` creates, whatever `rand()` draws and whatever `RAND_MAX`
is, has a radius in `20 .. 39`, a position inside the screen and the box
`x 0, y 0, w 960, h 600`. -/
theorem InitBall_box (RAND_MAX d0 d1 d2 d3 d4 d5 d6 : Nat) :
    20 ≤ (InitBall RAND_MAX d0 d1 d2 d3 d4 d5 d6).radius ∧
    (InitBall RAND_MAX d0 d1 d2 d3 d4 d5 d6).radius ≤ 39 ∧
    (InitBall RAND_MAX d0 d1 d2 d3 d4 d5 d6).bounds.x = 0 ∧
    (InitBall RAND_MAX d0 d1 d2 d3 d4 d5 d6).bounds.y = 0 ∧
    (InitBall RAND_MAX d0 d1 d2 d3 d4 d5 d6).bounds.w = 960 ∧
    (InitBall RAND_MAX d0 d1 d2 d3 d4 d5 d6).bounds.h = 600 := by
  have h4 : d4 % 20 < 20 := Nat.mod_lt _ (by norm_num)
  have h0 : d0 % WIDTH < 1920 := Nat.mod_lt _ (by unfold WIDTH; norm_num)
  have h1 : d1 % HEIGHT < 1200 := Nat.mod_lt _ (by unfold HEIGHT; norm_num)
  have r0 : (20 : ℝ) ≤ ((d4 % 20 + 20 : Nat) : ℝ) := by
    have : 20 ≤ d4 % 20 + 20 := by omega
    exact_mod_cast this
  have r1 : ((d4 % 20 + 20 : Nat) : ℝ) ≤ 39 := by
    have : d4 % 20 + 20 ≤ 39 := by omega
    exact_mod_cast this
  have p0 : ((d0 % WIDTH : Nat) : ℝ) ≤ 1920 := by
    have : d0 % WIDTH ≤ 1920 := by omega
    exact_mod_cast this
  have p1 : ((d1 % HEIGHT : Nat) : ℝ) ≤ 1200 := by
    have : d1 % HEIGHT ≤ 1200 := by omega
    exact_mod_cast this
  have hwb := wide_box
    ⟨⟨((d0 % WIDTH : Nat) : ℝ), ((d1 % HEIGHT : Nat) : ℝ)⟩, ⟨0, 0⟩,
      ((d4 % 20 + 20 : Nat) : ℝ), colors (d5 % 4), ⟨0, 0, 0, 0⟩,
      rnd (((d6 % 50 + 50 : Nat) : ℝ) / 100)⟩
    (Nat.cast_nonneg _) p0 (Nat.cast_nonneg _) p1
    (by
      show (8 : ℝ) ≤ ((d4 % 20 + 20 : Nat) : ℝ)
      linarith)
    (by
      show ((d4 % 20 + 20 : Nat) : ℝ) ≤ 8000000
      linarith)
  exact ⟨r0, r1, hwb⟩

/-- C17, amended: for a ball with position inside `[0, WIDTH] x [0, HEIGHT]` and radius
in `[8, 8000000]` (the double of the half-width then fits an `int`),
`UpdateBallBounds` yields the whole grid, `x 0, y 0, w 960, h 600`, so every grid cell
passes the containment test; and every ball that `Init` creates, for all draws of
`rand()`, has a radius in `20 .. 39` and this box. -/
theorem UpdateBallBounds_whole_grid (ball : Ball)
    (hx0 : 0 ≤ ball.pos.x) (hx1 : ball.pos.x ≤ (WIDTH : ℝ))
    (hy0 : 0 ≤ ball.pos.y) (hy1 : ball.pos.y ≤ (HEIGHT : ℝ))
    (hr : 8 ≤ ball.radius) (hR : ball.radius ≤ 8000000) :
    ((UpdateBallBounds ball).bounds.x = 0 ∧ (UpdateBallBounds ball).bounds.y = 0 ∧
      (UpdateBallBounds ball).bounds.w = 960 ∧ (UpdateBallBounds ball).bounds.h = 600) ∧
    (∀ row col : Int, inGrid row col → inBounds (UpdateBallBounds ball).bounds row col) ∧
    (∀ RAND_MAX d0 d1 d2 d3 d4 d5 d6 : Nat,
      20 ≤ (InitBall RAND_MAX d0 d1 d2 d3 d4 d5 d6).radius ∧
      (InitBall RAND_MAX d0 d1 d2 d3 d4 d5 d6).radius ≤ 39 ∧
      (InitBall RAND_MAX d0 d1 d2 d3 d4 d5 d6).bounds.x = 0 ∧
      (InitBall RAND_MAX d0 d1 d2 d3 d4 d5 d6).bounds.y = 0 ∧
      (InitBall RAND_MAX d0 d1 d2 d3 d4 d5 d6).bounds.w = 960 ∧
      (InitBall RAND_MAX d0 d1 d2 d3 d4 d5 d6).bounds.h = 600) := by
  have hW : ball.pos.x ≤ 1920 := by
    unfold WIDTH at hx1
    exact_mod_cast hx1
  have hH : ball.pos.y ≤ 1200 := by
    unfold HEIGHT at hy1
    exact_mod_cast hy1
  have hb := wide_box ball hx0 hW hy0 hH hr hR
  refine ⟨hb, ?_, InitBall_box⟩
  intro row col hg
  obtain ⟨bx, by1, bw, bh⟩ := hb
  unfold inGrid at hg
  unfold inBounds
  rw [bx, by1, bw, bh]
  omega

/-- Witness of C17, amended: a ball of radius 8 at the corner `(1920, 1200)`. -/
theorem UpdateBallBounds_whole_grid_witness :
    (UpdateBallBounds ⟨⟨1920, 1200⟩, ⟨1, 0⟩, 8, red, ⟨0, 0, 0, 0⟩, 1⟩).bounds.x = 0 ∧
    (UpdateBallBounds ⟨⟨1920, 1200⟩, ⟨1, 0⟩, 8, red, ⟨0, 0, 0, 0⟩, 1⟩).bounds.y = 0 ∧
    (UpdateBallBounds ⟨⟨1920, 1200⟩, ⟨1, 0⟩, 8, red, ⟨0, 0, 0, 0⟩, 1⟩).bounds.w = 960 ∧
    (UpdateBallBounds ⟨⟨1920, 1200⟩, ⟨1, 0⟩, 8, red, ⟨0, 0, 0, 0⟩, 1⟩).bounds.h = 600 :=
  (UpdateBallBounds_whole_grid ⟨⟨1920, 1200⟩, ⟨1, 0⟩, 8, red, ⟨0, 0, 0, 0⟩, 1⟩
    (show (0 : ℝ) ≤ 1920 by norm_num)
    (show (1920 : ℝ) ≤ (WIDTH : ℝ) by unfold WIDTH; norm_num)
    (show (0 : ℝ) ≤ 1200 by norm_num)
    (show (1200 : ℝ) ≤ (HEIGHT : ℝ) by unfold HEIGHT; norm_num)
    (show (8 : ℝ) ≤ 8 by norm_num) (show (8 : ℝ) ≤ 8000000 by norm_num)).1

/-! ## Colour blending never darkens -/

/-- C18: with a factor `≥ 0`, each of the red, green and blue bytes of
`BlendColors existing incoming factor` is at least the same byte of `existing`. -/
theorem BlendColors_never_darkens (existing incoming : Nat) (factor : ℝ)
    (hf : 0 ≤ factor) :
    byteOf existing 0 ≤ byteOf (BlendColors existing incoming factor) 0 ∧
    byteOf existing 1 ≤ byteOf (BlendColors existing incoming factor) 1 ∧
    byteOf existing 2 ≤ byteOf (BlendColors existing incoming factor) 2 := by
  have h := BlendColors_ge existing incoming factor hf
  exact ⟨h 0 (by norm_num), h 1 (by norm_num), h 2 (by norm_num)⟩

/-- Witness of C18: white blended into `0xFF6262FF` with factor one half. -/
theorem BlendColors_never_darkens_witness :
    byteOf 0xFF6262FF 0 ≤ byteOf (BlendColors 0xFF6262FF 0xFFFFFFFF (1 / 2)) 0 ∧
    byteOf 0xFF6262FF 1 ≤ byteOf (BlendColors 0xFF6262FF 0xFFFFFFFF (1 / 2)) 1 ∧
    byteOf 0xFF6262FF 2 ≤ byteOf (BlendColors 0xFF6262FF 0xFFFFFFFF (1 / 2)) 2 :=
  BlendColors_never_darkens 0xFF6262FF 0xFFFFFFFF (1 / 2) (by norm_num)

/-! ## Compositor: the stored pixel of the single-source scenario -/

/-- C19: in the single-source scenario the pixel stored for the centre cell
`(col 480, row 300)`, after the ambient-glow step with factor `1.0 * 0.15`, is
`0xFF6262FF`: red 255, green 98, blue 98, alpha 255. -/
theorem singleSource_centre_pixel (vel : Vector2) (stale : SDL_Rect) :
    cellPixel [singleSource vel stale] 300 480 = 0xFF6262FF ∧
    accumulate [singleSource vel stale] 300 480 = (0xFF0000FF, 1) ∧
    byteOf (cellPixel [singleSource vel stale] 300 480) 0 = 255 ∧
    byteOf (cellPixel [singleSource vel stale] 300 480) 1 = 98 ∧
    byteOf (cellPixel [singleSource vel stale] 300 480) 2 = 98 ∧
    byteOf (cellPixel [singleSource vel stale] 300 480) 3 = 255 := by
  obtain ⟨hb, hd, hf⟩ := singleSource_centre vel stale
  have hcol : (singleSource vel stale).color = red := rfl
  have hsrc : BlendColors 0 0xFF0000FF 1 = 0xFF0000FF := by
    rw [BlendColors_of_channels 0 0xFF0000FF 1 255 0 0
      (channel_of_bytes _ _ 0 0 255 255 _ (by decide) (by decide)
        (blendChannel_saturated 0 255 _ (by norm_num)))
      (channel_of_bytes _ _ 1 0 0 0 _ (by decide) (by decide)
        (blendChannel_eq 0 0 0 _ (by norm_num) (by norm_num) (by norm_num)))
      (channel_of_bytes _ _ 2 0 0 0 _ (by decide) (by decide)
        (blendChannel_eq 0 0 0 _ (by norm_num) (by norm_num) (by norm_num)))]
    norm_num
  have hacc : accumulate [singleSource vel stale] 300 480 = (0xFF0000FF, 1) := by
    unfold accumulate
    rw [List.foldl_cons, List.foldl_nil]
    unfold cellStep
    rw [if_pos hb, if_pos (by rw [hd]; unfold INFLUENCE_RADIUS; norm_num), hf, hcol,
      ColorToUint32_red_green.1, hsrc]
    norm_num
  have hglow : BlendColors 0xFF0000FF 0xFFFFFFFF (1 * 0.15) = 0xFF6262FF := by
    rw [BlendColors_of_channels 0xFF0000FF 0xFFFFFFFF (1 * 0.15) 255 98 98
      (channel_of_bytes _ _ 0 255 255 255 _ (by decide) (by decide)
        (blendChannel_saturated 255 255 _ (by norm_num)))
      (channel_of_bytes _ _ 1 0 255 98 _ (by decide) (by decide)
        (blendChannel_eq 0 255 98 _ (by norm_num) (by norm_num) (by norm_num)))
      (channel_of_bytes _ _ 2 0 255 98 _ (by decide) (by decide)
        (blendChannel_eq 0 255 98 _ (by norm_num) (by norm_num) (by norm_num)))]
    norm_num
  have hpix : cellPixel [singleSource vel stale] 300 480 = 0xFF6262FF := by
    unfold cellPixel ambientGlow
    rw [hacc]
    simp only []
    rw [if_pos (by norm_num), hglow]
  refine ⟨hpix, hacc, ?_, ?_, ?_, ?_⟩ <;> rw [hpix] <;> decide

/-! ## Pixel buffer: the index map -/

/-- Row-major enumeration: the rows of width `w`, one after the other, list the indices
`0 .. h * w - 1` in order. -/
theorem flatMap_rows (w h : Nat) :
    (List.range h).flatMap (fun row => (List.range w).map (fun col => col + row * w)) =
      List.range (h * w) := by
  induction h with
  | zero => simp
  | succ n ih =>
    rw [List.range_succ, List.flatMap_append, ih, Nat.succ_mul, List.range_add]
    congr 1
    simp only [List.flatMap_cons, List.flatMap_nil, List.append_nil]
    apply List.map_congr_left
    intro c _
    exact Nat.add_comm _ _

/-- C20: the index map `(row, col) -> col + row * (WIDTH / GRID_SCALE)` is a bijection
from the grid cells `row < 600`, `col < 960` onto the indices below 576000, the length
of `pixelBuffer`: every write is inside the buffer, two different cells never write the
same index, every index is the index of a cell, and the indices written by the two
loops are `0, 1, .., 575999`, each once. -/
theorem pixelIndex_bijective :
    bufferLength = 576000 ∧
    (∀ row col : Nat, row < 600 → col < 960 → pixelIndex row col < bufferLength) ∧
    (∀ row col row2 col2 : Nat, row < 600 → col < 960 → row2 < 600 → col2 < 960 →
      pixelIndex row col = pixelIndex row2 col2 → row = row2 ∧ col = col2) ∧
    (∀ i : Nat, i < bufferLength →
      ∃ row col : Nat, row < 600 ∧ col < 960 ∧ pixelIndex row col = i) ∧
    writtenIndices = List.range bufferLength ∧
    writtenIndices.Nodup ∧ writtenIndices.length = bufferLength := by
  have hw : WIDTH / GRID_SCALE = 960 := by decide
  have hh : HEIGHT / GRID_SCALE = 600 := by decide
  have hlen : bufferLength = 576000 := by
    unfold bufferLength
    rw [hw, hh]
  have hidx : ∀ row col : Nat, pixelIndex row col = col + row * 960 := by
    intro row col
    unfold pixelIndex
    rw [hw]
  have hlist : writtenIndices = List.range bufferLength := by
    unfold writtenIndices bufferLength
    rw [hw, hh]
    have e : (fun row => (List.range 960).map (fun col => pixelIndex row col)) =
        (fun row => (List.range 960).map (fun col => col + row * 960)) := by
      funext row
      apply List.map_congr_left
      intro c _
      exact hidx row c
    rw [e, flatMap_rows 960 600, Nat.mul_comm]
  refine ⟨hlen, ?_, ?_, ?_, hlist, ?_, ?_⟩
  · intro row col hr hc
    rw [hidx, hlen]
    omega
  · intro row col row2 col2 hr hc hr2 hc2 h
    rw [hidx, hidx] at h
    omega
  · intro i hi
    rw [hlen] at hi
    refine ⟨i / 960, i % 960, ?_, ?_, ?_⟩
    · omega
    · omega
    · rw [hidx]
      omega
  · rw [hlist]
    exact List.nodup_range _
  · rw [hlist, List.length_range]

/-- Witness of C20: the last cell of the grid is written at the last index. -/
theorem pixelIndex_bijective_witness : pixelIndex 599 959 < bufferLength :=
  pixelIndex_bijective.2.1 599 959 (by norm_num) (by norm_num)

end Metawall
